import Mathlib

/-!
# Verification of the transaction translation/codec layer

A shallow embedding of `src/types/transaction.rs`: the wire-level
transaction model (`TransactionInput`, `TransactionOutput`,
`VerboseRawTransaction`, `FundingOptions`, …), its conversions into the
canonical binary transaction form (`TxIn`, `TxOut`, `BitcoinTransaction`),
and the hex/binary consensus codec.

Bytes are modelled as `Nat` (with explicit `< 256` bounds where they
matter), machine integers as `Nat` with explicit bounds, Rust `panic!` /
`expect` as the `Except` error channel carrying the panic message, and
fractional coin amounts as `ℚ`.

The consensus codec (`bitcoin::consensus::encode`), the amount conversion
(`bitcoin_quantity`), hex decoding (`std_hex`), and the `ScriptPubKey`
script model live outside the sources under verification; they are
modelled from the specification and marked as such in their doc comments.
-/

namespace BtcRpc

/-- A transaction id: 32 hash bytes (byte-wise equality, as in the source's
`TransactionId` newtype over a fixed-length hash). -/
abbrev TransactionId := List Nat

/-- A block hash: fixed-length hash bytes. -/
abbrev BlockHash := List Nat

/-- Modelled from the spec: an `Address` is kept in its wire string form
(the source parses it via the external `bitcoin::Address` type, which is
not part of the sources under verification; address validation is
irrelevant to the claims settled here). -/
abbrev Address := String

/-- A `Script` is its raw byte vector (the external `bitcoin` crate's
`Script` wraps exactly the raw script bytes). -/
abbrev Script := List Nat

/-! ## Hex digits and hex decoding -/

/-- Value of one lowercase-or-uppercase hex digit. -/
def hexDigitVal (c : Char) : Option Nat :=
  if c = '0' then some 0
  else if c = '1' then some 1
  else if c = '2' then some 2
  else if c = '3' then some 3
  else if c = '4' then some 4
  else if c = '5' then some 5
  else if c = '6' then some 6
  else if c = '7' then some 7
  else if c = '8' then some 8
  else if c = '9' then some 9
  else if c = 'a' then some 10
  else if c = 'b' then some 11
  else if c = 'c' then some 12
  else if c = 'd' then some 13
  else if c = 'e' then some 14
  else if c = 'f' then some 15
  else if c = 'A' then some 10
  else if c = 'B' then some 11
  else if c = 'C' then some 12
  else if c = 'D' then some 13
  else if c = 'E' then some 14
  else if c = 'F' then some 15
  else none

/-- Value of one canonical (lowercase) hex digit. -/
def hexDigitValCanon (c : Char) : Option Nat :=
  if c = '0' then some 0
  else if c = '1' then some 1
  else if c = '2' then some 2
  else if c = '3' then some 3
  else if c = '4' then some 4
  else if c = '5' then some 5
  else if c = '6' then some 6
  else if c = '7' then some 7
  else if c = '8' then some 8
  else if c = '9' then some 9
  else if c = 'a' then some 10
  else if c = 'b' then some 11
  else if c = 'c' then some 12
  else if c = 'd' then some 13
  else if c = 'e' then some 14
  else if c = 'f' then some 15
  else none

/-- The canonical lowercase hex digit for a value `< 16`. -/
def hexDigitChar (n : Nat) : Char :=
  if n = 0 then '0'
  else if n = 1 then '1'
  else if n = 2 then '2'
  else if n = 3 then '3'
  else if n = 4 then '4'
  else if n = 5 then '5'
  else if n = 6 then '6'
  else if n = 7 then '7'
  else if n = 8 then '8'
  else if n = 9 then '9'
  else if n = 10 then 'a'
  else if n = 11 then 'b'
  else if n = 12 then 'c'
  else if n = 13 then 'd'
  else if n = 14 then 'e'
  else 'f'

/-- Decode a list of hex-digit characters, two digits per output byte. -/
def hexDecodeChars (f : Char → Option Nat) : List Char → Option (List Nat)
  | [] => some []
  | [_] => none
  | c1 :: c2 :: cs =>
    match f c1, f c2, hexDecodeChars f cs with
    | some hi, some lo, some rest => some ((16 * hi + lo) :: rest)
    | _, _, _ => none

/-- Modelled from the spec: the external `std_hex::decode` used for witness
entries — a hex string to its byte vector, accepting upper- and lowercase
digits, `none` on any non-hex character or odd length. -/
def std_hex.decode (s : String) : Option (List Nat) :=
  hexDecodeChars hexDigitVal s.data

/-- Canonical (lowercase) hex decoding, used by the binary codec's hex
layer: the canonical form of a transaction is its lowercase hex string. -/
def hexDecodeCanon (s : String) : Option (List Nat) :=
  hexDecodeChars hexDigitValCanon s.data

/-- Lowercase hex encoding of a byte list. -/
def hexEncodeChars : List Nat → List Char
  | [] => []
  | b :: bs => hexDigitChar (b / 16) :: hexDigitChar (b % 16) :: hexEncodeChars bs

/-- Lowercase hex encoding, as a string. -/
def hexEncode (l : List Nat) : String :=
  String.mk (hexEncodeChars l)

/-! ## The canonical binary transaction form

Modelled from the spec (§4.5 and §6): the canonical consensus transaction
types of the external `bitcoin` crate (`OutPoint`, `TxIn`, `TxOut`,
`Transaction`) and their consensus byte encoding — little-endian
fixed-width integers, variable-length-integer counts, length-prefixed
scripts, and the optional segregated-witness marker/flag with per-input
witness stacks. -/

/-- A reference to a previous transaction output: txid plus output index. -/
structure OutPoint where
  txid : TransactionId
  vout : Nat
deriving DecidableEq, Repr

/-- The null previous-output reference used by coinbase inputs: all-zero
txid and the maximal (`u32::MAX`) output index. -/
def OutPoint.null : OutPoint :=
  { txid := List.replicate 32 0, vout := 4294967295 }

/-- A canonical binary transaction input. -/
structure TxIn where
  previous_output : OutPoint
  script_sig : Script
  sequence : Nat
  witness : List (List Nat)
deriving DecidableEq, Repr

/-- A canonical binary transaction output. -/
structure TxOut where
  value : Nat
  script_pubkey : Script
deriving DecidableEq, Repr

/-- The canonical binary transaction. -/
structure BitcoinTransaction where
  version : Nat
  lock_time : Nat
  input : List TxIn
  output : List TxOut
deriving DecidableEq, Repr

/-! ### Consensus encoding (Modelled from the spec §6) -/

/-- Two little-endian bytes. -/
def encodeU16 (n : Nat) : List Nat :=
  [n % 256, n / 256 % 256]

/-- Four little-endian bytes. -/
def encodeU32 (n : Nat) : List Nat :=
  [n % 256, n / 256 % 256, n / 65536 % 256, n / 16777216 % 256]

/-- Eight little-endian bytes. -/
def encodeU64 (n : Nat) : List Nat :=
  [n % 256, n / 256 % 256, n / 65536 % 256, n / 16777216 % 256,
   n / 4294967296 % 256, n / 1099511627776 % 256,
   n / 281474976710656 % 256, n / 72057594037927936 % 256]

/-- The shortest-form variable-length integer (count prefix). -/
def encodeVarInt (n : Nat) : List Nat :=
  if n < 253 then [n]
  else if n < 65536 then 253 :: encodeU16 n
  else if n < 4294967296 then 254 :: encodeU32 n
  else 255 :: encodeU64 n

/-- A length-prefixed byte vector (scripts, witness items). -/
def encodeVarBytes (b : List Nat) : List Nat :=
  encodeVarInt b.length ++ b

/-- Consensus encoding of one input (witness serialized separately). -/
def encodeTxIn (i : TxIn) : List Nat :=
  i.previous_output.txid ++ encodeU32 i.previous_output.vout ++
    encodeVarBytes i.script_sig ++ encodeU32 i.sequence

/-- Consensus encoding of one output. -/
def encodeTxOut (o : TxOut) : List Nat :=
  encodeU64 o.value ++ encodeVarBytes o.script_pubkey

/-- Consensus encoding of one input's witness stack. -/
def encodeWitness (w : List (List Nat)) : List Nat :=
  encodeVarInt w.length ++ (w.map encodeVarBytes).flatten

/-- Whether the transaction is serialized in segregated-witness form
(some input carries a non-empty witness stack). -/
def hasWitness (t : BitcoinTransaction) : Bool :=
  t.input.any fun i => !i.witness.isEmpty

/-- Consensus encoding of a whole transaction. -/
def encodeTxBytes (t : BitcoinTransaction) : List Nat :=
  encodeU32 t.version ++
    (if hasWitness t then [0, 1] else []) ++
    encodeVarInt t.input.length ++ (t.input.map encodeTxIn).flatten ++
    encodeVarInt t.output.length ++ (t.output.map encodeTxOut).flatten ++
    (if hasWitness t then (t.input.map fun i => encodeWitness i.witness).flatten else []) ++
    encodeU32 t.lock_time

/-! ### Consensus decoding (Modelled from the spec §4.5) -/

/-- Consume exactly `n` bytes. -/
def parseBytes : Nat → List Nat → Option (List Nat × List Nat)
  | 0, l => some ([], l)
  | _ + 1, [] => none
  | n + 1, b :: l =>
    match parseBytes n l with
    | some (xs, r) => some (b :: xs, r)
    | none => none

/-- Consume a two-byte little-endian integer. -/
def parseU16 : List Nat → Option (Nat × List Nat)
  | b0 :: b1 :: r => some (b0 + 256 * b1, r)
  | _ => none

/-- Consume a four-byte little-endian integer. -/
def parseU32 : List Nat → Option (Nat × List Nat)
  | b0 :: b1 :: b2 :: b3 :: r =>
    some (b0 + 256 * b1 + 65536 * b2 + 16777216 * b3, r)
  | _ => none

/-- Consume an eight-byte little-endian integer. -/
def parseU64 : List Nat → Option (Nat × List Nat)
  | b0 :: b1 :: b2 :: b3 :: b4 :: b5 :: b6 :: b7 :: r =>
    some (b0 + 256 * b1 + 65536 * b2 + 16777216 * b3 + 4294967296 * b4 +
      1099511627776 * b5 + 281474976710656 * b6 + 72057594037927936 * b7, r)
  | _ => none

/-- Consume a variable-length integer, rejecting non-shortest forms (the
canonical encoding of a count is unique). -/
def parseVarInt : List Nat → Option (Nat × List Nat)
  | [] => none
  | b :: r =>
    if b < 253 then some (b, r)
    else if b = 253 then
      match parseU16 r with
      | some (n, r1) => if 253 ≤ n then some (n, r1) else none
      | none => none
    else if b = 254 then
      match parseU32 r with
      | some (n, r1) => if 65536 ≤ n then some (n, r1) else none
      | none => none
    else if b = 255 then
      match parseU64 r with
      | some (n, r1) => if 4294967296 ≤ n then some (n, r1) else none
      | none => none
    else none

/-- Consume a length-prefixed byte vector. -/
def parseVarBytes (l : List Nat) : Option (List Nat × List Nat) :=
  match parseVarInt l with
  | some (n, r) => parseBytes n r
  | none => none

/-- Consume `n` items with the item parser `p`. -/
def parseCount (p : List Nat → Option (α × List Nat)) :
    Nat → List Nat → Option (List α × List Nat)
  | 0, l => some ([], l)
  | n + 1, l =>
    match p l with
    | some (x, r) =>
      match parseCount p n r with
      | some (xs, r1) => some (x :: xs, r1)
      | none => none
    | none => none

/-- Consume one input (witness filled in separately, empty here). -/
def parseTxIn (l : List Nat) : Option (TxIn × List Nat) :=
  match parseBytes 32 l with
  | some (txid, r1) =>
    match parseU32 r1 with
    | some (vout, r2) =>
      match parseVarBytes r2 with
      | some (script, r3) =>
        match parseU32 r3 with
        | some (seq, r4) =>
          some ({ previous_output := { txid := txid, vout := vout },
                  script_sig := script, sequence := seq, witness := [] }, r4)
        | none => none
      | none => none
    | none => none
  | none => none

/-- Consume one output. -/
def parseTxOut (l : List Nat) : Option (TxOut × List Nat) :=
  match parseU64 l with
  | some (value, r1) =>
    match parseVarBytes r1 with
    | some (script, r2) => some ({ value := value, script_pubkey := script }, r2)
    | none => none
  | none => none

/-- Consume one input's witness stack. -/
def parseWitness (l : List Nat) : Option (List (List Nat) × List Nat) :=
  match parseVarInt l with
  | some (n, r) => parseCount parseVarBytes n r
  | none => none

/-- Replace an input's witness stack. -/
def setWitness (i : TxIn) (w : List (List Nat)) : TxIn :=
  { i with witness := w }

/-- Consume a segregated-witness transaction body (after the version and
the two marker/flag bytes): counts, inputs, outputs, one witness stack
per input, lock time. The segwit form is accepted only when some parsed
witness stack is non-empty (otherwise the legacy form is the unique
canonical encoding). -/
def parseTxBytesSegwit (version : Nat) (r2 : List Nat) :
    Option (BitcoinTransaction × List Nat) :=
  match parseVarInt r2 with
  | some (nin, r3) =>
    match parseCount parseTxIn nin r3 with
    | some (ins, r4) =>
      match parseVarInt r4 with
      | some (nout, r5) =>
        match parseCount parseTxOut nout r5 with
        | some (outs, r6) =>
          match parseCount parseWitness nin r6 with
          | some (wits, r7) =>
            match parseU32 r7 with
            | some (lock, r8) =>
              let input := List.zipWith setWitness ins wits
              if input.any fun i => !i.witness.isEmpty then
                some ({ version := version, lock_time := lock,
                        input := input, output := outs }, r8)
              else none
            | none => none
          | none => none
        | none => none
      | none => none
    | none => none
  | none => none

/-- Consume a legacy (no-witness) transaction body after the version:
counts, inputs, outputs, lock time. -/
def parseTxBytesLegacy (version : Nat) (r : List Nat) :
    Option (BitcoinTransaction × List Nat) :=
  match parseVarInt r with
  | some (nin, r1) =>
    match parseCount parseTxIn nin r1 with
    | some (ins, r2) =>
      match parseVarInt r2 with
      | some (nout, r3) =>
        match parseCount parseTxOut nout r3 with
        | some (outs, r4) =>
          match parseU32 r4 with
          | some (lock, r5) =>
            some ({ version := version, lock_time := lock,
                    input := ins, output := outs }, r5)
          | none => none
        | none => none
      | none => none
    | none => none
  | none => none

/-- Consume a whole transaction. A leading `0, 1` marker/flag pair after
the version selects the segregated-witness form; anything else is parsed
as the legacy form. -/
def parseTxBytes (l : List Nat) : Option (BitcoinTransaction × List Nat) :=
  match parseU32 l with
  | some (version, r) =>
    match r with
    | 0 :: 1 :: r2 => parseTxBytesSegwit version r2
    | _ => parseTxBytesLegacy version r
  | none => none

/-- Hex-string transaction decoding: canonical hex to bytes, then the
consensus parser, requiring the whole payload to be consumed. -/
def decodeTx (s : String) : Option BitcoinTransaction :=
  match hexDecodeCanon s with
  | some l =>
    match parseTxBytes l with
    | some (t, []) => some t
    | _ => none
  | none => none

/-- Structural well-formedness of a binary transaction: at least one
input, 32-byte txids, all machine integers and bytes within their widths,
and all lengths within the variable-length-integer range. -/
def wellFormedTx (t : BitcoinTransaction) : Bool :=
  decide (t.version < 4294967296) &&
  decide (t.lock_time < 4294967296) &&
  !t.input.isEmpty &&
  decide (t.input.length < 18446744073709551616) &&
  decide (t.output.length < 18446744073709551616) &&
  t.input.all (fun i =>
    decide (i.previous_output.txid.length = 32) &&
    i.previous_output.txid.all (fun b => decide (b < 256)) &&
    decide (i.previous_output.vout < 4294967296) &&
    decide (i.sequence < 4294967296) &&
    decide (i.script_sig.length < 18446744073709551616) &&
    i.script_sig.all (fun b => decide (b < 256)) &&
    decide (i.witness.length < 18446744073709551616) &&
    i.witness.all (fun w =>
      decide (w.length < 18446744073709551616) &&
      w.all (fun b => decide (b < 256)))) &&
  t.output.all (fun o =>
    decide (o.value < 18446744073709551616) &&
    decide (o.script_pubkey.length < 18446744073709551616) &&
    o.script_pubkey.all (fun b => decide (b < 256)))

/-! ## The wire-level domain model (from `src/types/transaction.rs`) -/

/-- `pub struct SerializedRawTransaction(pub String)`: a canonical hex
string. -/
structure SerializedRawTransaction where
  hexStr : String
deriving DecidableEq, Repr

/-- `impl From<BitcoinTransaction> for SerializedRawTransaction`: the
canonical hex serialization of a binary transaction
(`bitcoin::consensus::encode::serialize_hex`). -/
def serializedRawTransactionFromTx (tx : BitcoinTransaction) : SerializedRawTransaction :=
  { hexStr := hexEncode (encodeTxBytes tx) }

/-- `pub struct ScriptSig { asm, hex }`. -/
structure ScriptSig where
  asm : String
  hex : Script
deriving DecidableEq, Repr

/-- Modelled from the spec (§3, §4.1): the closed script-kind enumeration
of `types/script.rs` (that file is not among the sources under
verification) with its explicit unknown fallback. -/
inductive ScriptType
  | nonStandard
  | pubKey
  | pubKeyHash
  | scriptHash
  | multisig
  | nullData
  | witnessV0KeyHash
  | witnessV0ScriptHash
  | unknown
deriving DecidableEq, Repr

/-- Modelled from the spec (§3): `ScriptPubKey` of `types/script.rs`
(that file is not among the sources under verification): disassembly,
raw script bytes, optional required-signature count, script kind,
optional derived addresses. -/
structure ScriptPubKey where
  asm : String
  hex : Script
  req_sigs : Option Nat
  script_type : ScriptType
  addresses : Option (List Address)
deriving DecidableEq, Repr

/-- `pub struct TransactionInput`: the flat wire shape of an input, all
case-dependent fields optional, as deserialized by the derived serde
implementation. -/
structure TransactionInput where
  txid : Option TransactionId
  vout : Option Nat
  script_sig : Option ScriptSig
  coinbase : Option String
  sequence : Nat
  witness : List String
deriving DecidableEq, Repr

/-- `pub struct TransactionOutput { value, n, script_pub_key }`. The wire
amount is a fractional coin-unit value, modelled as `ℚ`. -/
structure TransactionOutput where
  value : ℚ
  n : Nat
  script_pub_key : ScriptPubKey
deriving DecidableEq, Repr

/-- `pub struct VerboseRawTransaction`. -/
structure VerboseRawTransaction where
  txid : TransactionId
  hash : String
  size : Nat
  vsize : Nat
  version : Nat
  locktime : Nat
  vin : List TransactionInput
  vout : List TransactionOutput
  hex : SerializedRawTransaction
  blockhash : BlockHash
  confirmations : Int
  time : Nat
  blocktime : Nat
deriving DecidableEq, Repr

/-! ## Conversion failures

Rust panics (`expect`) abort the computation; they are embedded as the
`Except` error channel carrying the source's panic message, kept distinct
from the spec's recoverable error values. -/

/-- How a conversion can fail. `panicMsg` is a Rust panic (abort-style,
message taken verbatim from the source). `precisionLoss` is the spec's
`PrecisionLossError` (§7). `hexDecodeErr` is the spec's recoverable
`HexDecodeError` result (§7), modelled from the spec for comparison — no
code path in the source produces it. -/
inductive ConvFailure
  | panicMsg (msg : String)
  | precisionLoss
  | hexDecodeErr
deriving DecidableEq, Repr

end BtcRpc

deriving instance DecidableEq for Except

namespace BtcRpc

/-- `map`/`collect` over a fallible element conversion, stopping at the
first failure — the shape of the source's iterator pipelines, with panics
on the error channel. -/
def mapMExcept (f : α → Except ε β) : List α → Except ε (List β)
  | [] => .ok []
  | a :: as =>
    match f a with
    | .error e => .error e
    | .ok b =>
      match mapMExcept f as with
      | .error e => .error e
      | .ok bs => .ok (b :: bs)

/-- One witness entry of the wire input, hex-decoded;
`std_hex::decode(item).expect("BitcoinRPC returned invalid hex")`. -/
def decodeWitnessItem (item : String) : Except ConvFailure (List Nat) :=
  match std_hex.decode item with
  | some bytes => .ok bytes
  | none => .error (.panicMsg "BitcoinRPC returned invalid hex")

/-- `impl From<TransactionInput> for TxIn`: previous output from
`txid.map_or(OutPoint::null(), …)` with
`vout.expect("BitcoinRPC returned incomplete previous transaction output")`,
script from `script_sig.map_or(Script::new(), |script| script.hex)`, and
the witness entries hex-decoded with
`expect("BitcoinRPC returned invalid hex")`. -/
def txInFromTransactionInput (tx_input : TransactionInput) : Except ConvFailure TxIn := do
  let previous_output ←
    (match tx_input.txid with
    | none => Except.ok OutPoint.null
    | some txid =>
      match tx_input.vout with
      | some vout => Except.ok { txid := txid, vout := vout }
      | none => Except.error
          (ConvFailure.panicMsg
            "BitcoinRPC returned incomplete previous transaction output") :
      Except ConvFailure OutPoint)
  let sequence := tx_input.sequence
  let script_sig :=
    match tx_input.script_sig with
    | none => ([] : Script)
    | some script => script.hex
  let witness ← mapMExcept decodeWitnessItem tx_input.witness
  return { previous_output := previous_output, script_sig := script_sig,
           sequence := sequence, witness := witness }

/-- Modelled from the spec (§4.3): the external `bitcoin_quantity` crate's
`BitcoinQuantity::from_bitcoin(value).satoshi()` — multiply the fractional
coin amount by the decimal scale `10^8`, round to the nearest integer, and
fail with `PrecisionLoss` when the rounding delta exceeds the fixed
epsilon `1/10000` (below the smallest genuine-precision-loss delta
`1/10`). Written over the numerator and denominator so that it evaluates
by kernel reduction; `bitcoinQuantityFromBitcoin_eq` below restates it as
the spec's round-and-compare formula over `ℚ`. -/
def bitcoinQuantityFromBitcoin (value : ℚ) : Except ConvFailure Nat :=
  let num : Int := value.num * 100000000
  let r : Int := (2 * num + value.den) / (2 * (value.den : Int))
  if 10000 * (num - r * value.den).natAbs > value.den then .error .precisionLoss
  else .ok r.toNat

/-- `impl From<TransactionOutput> for TxOut`: amount through
`BitcoinQuantity::from_bitcoin(tx_output.value).satoshi()`, script copied
from `script_pub_key.hex`. -/
def txOutFromTransactionOutput (tx_output : TransactionOutput) : Except ConvFailure TxOut := do
  let value ← bitcoinQuantityFromBitcoin tx_output.value
  return { value := value, script_pubkey := tx_output.script_pub_key.hex }

/-- `impl From<VerboseRawTransaction> for BitcoinTransaction`: version and
lock time copied, `vin` and `vout` converted element-wise by
`into_iter().map(|x| x.into()).collect()`. -/
def bitcoinTransactionFromVerbose (verbose_raw_tx : VerboseRawTransaction) :
    Except ConvFailure BitcoinTransaction := do
  let input ← mapMExcept txInFromTransactionInput verbose_raw_tx.vin
  let output ← mapMExcept txOutFromTransactionOutput verbose_raw_tx.vout
  return { version := verbose_raw_tx.version, lock_time := verbose_raw_tx.locktime,
           input := input, output := output }

/-! ## Deserialization of the wire input (derived serde implementation)

The derived `Deserialize` for `TransactionInput` reads each field
independently: the `Option` fields default to `None` when the key is
absent, `txinwitness` defaults to the empty list (`#[serde(default)]`),
and the only requirement is that the non-optional `sequence` key is
present. No cross-field validation is performed. -/

/-- The wire JSON object for one input: every key optionally present. -/
structure WireTransactionInput where
  txid : Option TransactionId
  vout : Option Nat
  script_sig : Option ScriptSig
  coinbase : Option String
  sequence : Option Nat
  txinwitness : Option (List String)
deriving DecidableEq, Repr

/-- A deserialization failure: a required key was absent. -/
inductive DeserError
  | missingField (name : String)
deriving DecidableEq, Repr

/-- The derived serde deserialization of `TransactionInput` from its wire
object: fields copied independently, `witness` defaulting to `[]`,
failing only when `sequence` is absent. -/
def deserializeTransactionInput (w : WireTransactionInput) :
    Except DeserError TransactionInput :=
  match w.sequence with
  | none => .error (.missingField "sequence")
  | some seq =>
    .ok { txid := w.txid, vout := w.vout, script_sig := w.script_sig,
          coinbase := w.coinbase, sequence := seq,
          witness := w.txinwitness.getD [] }

/-! ## Accessors (`impl TransactionInput`)

Each accessor is an `expect` on the corresponding optional field: the
success value, or the source's panic message on the error channel. -/

/-- `pub fn txid(&self)`: `self.txid.as_ref().expect(…)`. -/
def TransactionInput.txidAccessor (i : TransactionInput) : Except String TransactionId :=
  match i.txid with
  | some t => .ok t
  | none => .error "This is a coinbase transaction."

/-- `pub fn vout(&self)`: `self.vout.expect(…)`. -/
def TransactionInput.voutAccessor (i : TransactionInput) : Except String Nat :=
  match i.vout with
  | some v => .ok v
  | none => .error "This is a coinbase transaction."

/-- `pub fn script_sig(&self)`: `self.script_sig.as_ref().expect(…)`. -/
def TransactionInput.scriptSigAccessor (i : TransactionInput) : Except String ScriptSig :=
  match i.script_sig with
  | some s => .ok s
  | none => .error "This is a coinbase transaction."

/-- `pub fn coinbase(&self)`: `self.coinbase.as_ref().expect(…)`. -/
def TransactionInput.coinbaseAccessor (i : TransactionInput) : Except String String :=
  match i.coinbase with
  | some c => .ok c
  | none => .error "This is NOT a coinbase transaction."

/-- `pub fn sequence(&self)`: a total field read. -/
def TransactionInput.sequenceAccessor (i : TransactionInput) : Except String Nat :=
  .ok i.sequence

/-- The witness accessor: `witness` is a public non-optional field, so its
read is total. -/
def TransactionInput.witnessAccessor (i : TransactionInput) : Except String (List String) :=
  .ok i.witness

/-! ## Input-variant case predicates (from the claims' case descriptions) -/

/-- The Coinbase case of the wire input: coinbase data present, the
previous-output reference (txid and vout) and the signature script
absent. -/
def IsCoinbaseInput (i : TransactionInput) : Prop :=
  i.coinbase ≠ none ∧ i.txid = none ∧ i.vout = none ∧ i.script_sig = none

/-- The Standard case of the wire input: the previous-output reference
present and the coinbase data absent. -/
def IsStandardInput (i : TransactionInput) : Prop :=
  i.txid ≠ none ∧ i.vout ≠ none ∧ i.coinbase = none

instance (i : TransactionInput) : Decidable (IsCoinbaseInput i) := by
  unfold IsCoinbaseInput; infer_instance

instance (i : TransactionInput) : Decidable (IsStandardInput i) := by
  unfold IsStandardInput; infer_instance

/-- Exactly one of the two input cases is populated. -/
def ExactlyOneCase (i : TransactionInput) : Prop :=
  IsCoinbaseInput i ∨ IsStandardInput i

instance (i : TransactionInput) : Decidable (ExactlyOneCase i) := by
  unfold ExactlyOneCase; infer_instance

/-! ## `FundingOptions` and its builder methods -/

/-- `pub struct FundingOptions`: named optional configuration fields. -/
structure FundingOptions where
  change_address : Option Address
  change_position : Option Nat
  include_watching : Option Bool
  lock_unspents : Option Bool
  reserve_change_key : Option Bool
  fee_rate : Option Nat
  subtract_fee_from_outputs : Option (List Nat)
deriving DecidableEq, Repr

/-- `FundingOptions::new()`: every field `None`. -/
def FundingOptions.new : FundingOptions :=
  { change_address := none, change_position := none, include_watching := none,
    lock_unspents := none, reserve_change_key := none, fee_rate := none,
    subtract_fee_from_outputs := none }

/-- `with_change_address`. -/
def FundingOptions.with_change_address (o : FundingOptions) (address : Address) :
    FundingOptions :=
  { o with change_address := some address }

/-- `with_change_position`. -/
def FundingOptions.with_change_position (o : FundingOptions) (change_position : Nat) :
    FundingOptions :=
  { o with change_position := some change_position }

/-- `with_include_watching`. -/
def FundingOptions.with_include_watching (o : FundingOptions) (include_watching : Bool) :
    FundingOptions :=
  { o with include_watching := some include_watching }

/-- `with_lock_unspents`. -/
def FundingOptions.with_lock_unspents (o : FundingOptions) (lock_unspents : Bool) :
    FundingOptions :=
  { o with lock_unspents := some lock_unspents }

/-- `with_reserve_change_key`. -/
def FundingOptions.with_reserve_change_key (o : FundingOptions) (reserve_change_key : Bool) :
    FundingOptions :=
  { o with reserve_change_key := some reserve_change_key }

/-- `with_fee_rate`. -/
def FundingOptions.with_fee_rate (o : FundingOptions) (fee_rate : Nat) :
    FundingOptions :=
  { o with fee_rate := some fee_rate }

/-- `with_subtract_fee_from_outputs`. -/
def FundingOptions.with_subtract_fee_from_outputs (o : FundingOptions)
    (subtract_fee_from_outputs : List Nat) : FundingOptions :=
  { o with subtract_fee_from_outputs := some subtract_fee_from_outputs }

/-! ## Concrete sample values for witnesses and counterexamples -/

/-- A 32-byte sample txid (the value `1` in each byte). -/
def sampleTxid : TransactionId := List.replicate 32 1

/-- An empty sample `ScriptPubKey`. -/
def sampleSpk : ScriptPubKey :=
  { asm := "", hex := [], req_sigs := none, script_type := .nonStandard,
    addresses := none }

/-- A wire input carrying BOTH the coinbase data and a previous-output
reference (as the untyped wire format permits). -/
def c1WireBoth : WireTransactionInput :=
  { txid := some sampleTxid, vout := some 0,
    script_sig := some { asm := "", hex := [1] }, coinbase := some "ab",
    sequence := some 4294967295, txinwitness := none }

/-- A wire input carrying NEITHER the coinbase data nor a previous-output
reference. -/
def c1WireNeither : WireTransactionInput :=
  { txid := none, vout := none, script_sig := none, coinbase := none,
    sequence := some 4294967295, txinwitness := none }

/-- A coinbase-case input with coinbase data `ab`. -/
def c2CoinbaseIn : TransactionInput :=
  { txid := none, vout := none, script_sig := none, coinbase := some "ab",
    sequence := 4294967295, witness := [] }

/-- A standard-case input. -/
def c2StandardIn : TransactionInput :=
  { txid := some sampleTxid, vout := some 1,
    script_sig := some { asm := "", hex := [2, 3] }, coinbase := none,
    sequence := 4294967294, witness := ["ab"] }

/-- The rational `1 / 10^8` (one minimal unit in coin units), given by its
reduced numerator and denominator. -/
def oneSatoshi : ℚ := ⟨1, 100000000, by norm_num, Nat.coprime_one_left _⟩

/-- The rational `1 / 10^9`: a value requiring nine fractional digits. -/
def oneNineDigits : ℚ := ⟨1, 1000000000, by norm_num, Nat.coprime_one_left _⟩

/-- A wire output of 50 whole coins. -/
def c3Out50 : TransactionOutput :=
  { value := 50, n := 0, script_pub_key := sampleSpk }

/-- A wire output of one minimal unit. -/
def c3OutSat : TransactionOutput :=
  { value := oneSatoshi, n := 1, script_pub_key := sampleSpk }

/-- A wire output whose amount needs nine fractional digits. -/
def c3OutBad : TransactionOutput :=
  { value := oneNineDigits, n := 2, script_pub_key := sampleSpk }

/-- A coinbase-case input used for the C4 counterexample. -/
def c4CoinbaseIn : TransactionInput :=
  { txid := none, vout := none, script_sig := none, coinbase := some "ab",
    sequence := 4294967295, witness := [] }

/-- The canonical hex of the one-coinbase-input, one-output transaction
whose wire view is `c4Verbose`: version `1`, null previous output, input
script `ab` (the coinbase data), sequence `ffffffff`, one zero-value
output with an empty script, lock time `0`. -/
def c4Hex : String :=
  "01000000010000000000000000000000000000000000000000000000000000000000000000ffffffff01abffffffff0100000000000000000000000000"

/-- A node-consistent verbose view of the transaction serialized in
`c4Hex`: its fields are exactly the wire fields the node reports for that
transaction (coinbase data `ab`, no scriptSig key, no witness). -/
def c4Verbose : VerboseRawTransaction :=
  { txid := [], hash := "", size := 61, vsize := 61, version := 1,
    locktime := 0, vin := [c4CoinbaseIn],
    vout := [{ value := 0, n := 0, script_pub_key := sampleSpk }],
    hex := { hexStr := c4Hex }, blockhash := [], confirmations := 1,
    time := 0, blocktime := 0 }

/-- What `c4Hex` decodes to: the input script carries the coinbase
bytes. -/
def c4HexTx : BitcoinTransaction :=
  { version := 1, lock_time := 0,
    input := [{ previous_output := OutPoint.null, script_sig := [171],
                sequence := 4294967295, witness := [] }],
    output := [{ value := 0, script_pubkey := [] }] }

/-- What converting `c4Verbose`'s own fields yields: the input script is
empty — the coinbase data is dropped. -/
def c4ConvTx : BitcoinTransaction :=
  { version := 1, lock_time := 0,
    input := [{ previous_output := OutPoint.null, script_sig := [],
                sequence := 4294967295, witness := [] }],
    output := [{ value := 0, script_pubkey := [] }] }

/-- A structurally valid segregated-witness transaction exercising both
witness stacks and all integer widths, for the C5 witness. -/
def c5Tx : BitcoinTransaction :=
  { version := 2, lock_time := 7,
    input := [{ previous_output := { txid := List.replicate 32 17, vout := 3 },
                script_sig := [1, 2], sequence := 4294967294,
                witness := [[5], []] }],
    output := [{ value := 1000, script_pubkey := [81] }] }

/-- The canonical hex serialization of `c5Tx`. -/
def c5Hex : String :=
  "02000000000101111111111111111111111111111111111111111111111111111111111111111103000000020102feffffff01e80300000000000001510201050007000000"

/-- A coinbase-case input for the C6 witness. -/
def c6CoinbaseIn : TransactionInput :=
  { txid := none, vout := none, script_sig := none, coinbase := some "0102",
    sequence := 1, witness := [] }

/-- A standard-case input for the C6 witness. -/
def c6StandardIn : TransactionInput :=
  { txid := some sampleTxid, vout := some 0,
    script_sig := some { asm := "", hex := [] }, coinbase := none,
    sequence := 2, witness := [] }

/-- An input carrying a malformed (non-hex) witness entry. -/
def c7BadWitnessIn : TransactionInput :=
  { txid := none, vout := none, script_sig := none, coinbase := some "ab",
    sequence := 0, witness := ["zz"] }

/-- A verbose transaction with one standard input and one output, for the
C8 witness. -/
def c8Verbose : VerboseRawTransaction :=
  { txid := [], hash := "", size := 0, vsize := 0, version := 2,
    locktime := 500, vin := [c2StandardIn],
    vout := [{ value := 50, n := 0, script_pub_key := sampleSpk }],
    hex := { hexStr := "" }, blockhash := [], confirmations := 0,
    time := 0, blocktime := 0 }

/-- An input with the txid absent but a vout present (the vout is
ignored by the conversion). -/
def c9NoTxidIn : TransactionInput :=
  { txid := none, vout := some 7, script_sig := none, coinbase := some "00",
    sequence := 5, witness := [] }

/-- An input with the txid present but the vout absent (the conversion
panics). -/
def c9MissingVoutIn : TransactionInput :=
  { txid := some sampleTxid, vout := none,
    script_sig := some { asm := "", hex := [] }, coinbase := none,
    sequence := 5, witness := [] }

/-- The `TransactionInput` deserialized from `c1WireBoth`. -/
def c1BothIn : TransactionInput :=
  { txid := some sampleTxid, vout := some 0,
    script_sig := some { asm := "", hex := [1] }, coinbase := some "ab",
    sequence := 4294967295, witness := [] }

/-- The `TransactionInput` deserialized from `c1WireNeither`. -/
def c1NeitherIn : TransactionInput :=
  { txid := none, vout := none, script_sig := none, coinbase := none,
    sequence := 4294967295, witness := [] }

/-- A wire input missing the required `sequence` key. -/
def c1WireNoSeq : WireTransactionInput :=
  { txid := none, vout := none, script_sig := none, coinbase := some "ab",
    sequence := none, txinwitness := none }

/-- The binary transaction that converting `c8Verbose` yields. -/
def c8Tx : BitcoinTransaction :=
  { version := 2, lock_time := 500,
    input := [{ previous_output := { txid := sampleTxid, vout := 1 },
                script_sig := [2, 3], sequence := 4294967294,
                witness := [[171]] }],
    output := [{ value := 5000000000, script_pubkey := [] }] }

/-! # Theorems

General lemmas first, then one theorem per claim (with its witness or
counterexample). -/

/-! ## `Except` bind reductions -/

/-- Bind on a success reduces to the continuation. -/
theorem exceptBindOk (a : α) (f : α → Except ε β) :
    (Except.ok a >>= f) = f a := rfl

/-- Bind on a failure short-circuits. -/
theorem exceptBindError (e : ε) (f : α → Except ε β) :
    ((Except.error e : Except ε α) >>= f) = Except.error e := rfl

/-! ## `mapMExcept` lemmas -/

/-- A successful traversal preserves the length. -/
theorem mapMExcept_ok_length {f : α → Except ε β} :
    ∀ {l : List α} {l' : List β}, mapMExcept f l = Except.ok l' →
      l'.length = l.length := by
  intro l
  induction l with
  | nil => intro l' h; cases h; rfl
  | cons a as ih =>
    intro l' h
    unfold mapMExcept at h
    cases hfa : f a with
    | error e => rw [hfa] at h; cases h
    | ok b =>
      rw [hfa] at h
      cases hrest : mapMExcept f as with
      | error e => rw [hrest] at h; cases h
      | ok bs =>
        rw [hrest] at h
        cases h
        simp [ih hrest]

/-- A successful traversal converts element-wise, in order. -/
theorem mapMExcept_ok_get {f : α → Except ε β} :
    ∀ {l : List α} {l' : List β}, mapMExcept f l = Except.ok l' →
      ∀ k (hk : k < l.length) (hk2 : k < l'.length),
        f (l.get ⟨k, hk⟩) = Except.ok (l'.get ⟨k, hk2⟩) := by
  intro l
  induction l with
  | nil => intro l' _ k hk; exact absurd hk (by simp)
  | cons a as ih =>
    intro l' h k hk hk2
    unfold mapMExcept at h
    cases hfa : f a with
    | error e => rw [hfa] at h; cases h
    | ok b =>
      rw [hfa] at h
      cases hrest : mapMExcept f as with
      | error e => rw [hrest] at h; cases h
      | ok bs =>
        rw [hrest] at h
        cases h
        cases k with
        | zero => exact hfa
        | succ k' => exact ih hrest k' (Nat.lt_of_succ_lt_succ hk) (Nat.lt_of_succ_lt_succ hk2)

/-- When some witness entry is malformed hex, the witness traversal fails
with the invalid-hex panic (the only failure the element conversion
produces). -/
theorem mapMExcept_decodeWitness_error :
    ∀ (l : List String), (∃ w ∈ l, std_hex.decode w = none) →
      mapMExcept decodeWitnessItem l =
        Except.error (ConvFailure.panicMsg "BitcoinRPC returned invalid hex") := by
  intro l
  induction l with
  | nil => rintro ⟨w, hw, _⟩; cases hw
  | cons a as ih =>
    rintro ⟨w, hw, hdec⟩
    unfold mapMExcept
    cases hda : std_hex.decode a with
    | none => simp [decodeWitnessItem, hda]
    | some b =>
      have hw' : w ∈ as := by
        cases List.mem_cons.mp hw with
        | inl heq => rw [heq] at hdec; rw [hdec] at hda; cases hda
        | inr h => exact h
      rw [show decodeWitnessItem a = Except.ok b by simp [decodeWitnessItem, hda]]
      rw [ih ⟨w, hw', hdec⟩]

/-! ## The amount conversion, restated over `ℚ` -/

/-- `bitcoinQuantityFromBitcoin` is the spec's formula: scale by `10^8`,
round to nearest, fail iff the rounding delta exceeds the epsilon. -/
theorem bitcoinQuantityFromBitcoin_eq (value : ℚ) :
    bitcoinQuantityFromBitcoin value =
      if 1 / 10000 < |value * 100000000 - (round (value * 100000000) : ℚ)|
      then .error .precisionLoss
      else .ok (round (value * 100000000)).toNat := by
  have hd0 : 0 < value.den := value.pos
  have hd : (0 : ℚ) < (value.den : ℚ) := by exact_mod_cast hd0
  have hscaled : value * 100000000 = ((value.num * 100000000 : Int) : ℚ) / (value.den : ℚ) := by
    conv_lhs => rw [← Rat.num_div_den value]
    push_cast
    field_simp
  have hround : (2 * (value.num * 100000000) + value.den) / (2 * (value.den : Int)) =
      round (value * 100000000) := by
    rw [hscaled, round_eq]
    have h2 : ((value.num * 100000000 : Int) : ℚ) / (value.den : ℚ) + 1 / 2 =
        ((2 * (value.num * 100000000) + value.den : Int) : ℚ) / ((2 * value.den : ℕ) : ℚ) := by
      push_cast
      field_simp
      ring
    rw [h2, Rat.floor_intCast_div_natCast]
    push_cast
    ring_nf
  have hdelta : value * 100000000 - ((round (value * 100000000) : Int) : ℚ) =
      ((value.num * 100000000 - round (value * 100000000) * value.den : Int) : ℚ) /
        (value.den : ℚ) := by
    rw [hscaled]
    push_cast
    field_simp
    ring
  have hcond : (10000 * ((value.num * 100000000) -
      round (value * 100000000) * value.den).natAbs > value.den) ↔
      (1 / 10000 < |value * 100000000 - (round (value * 100000000) : ℚ)|) := by
    rw [hdelta, abs_div, abs_of_pos hd, div_lt_div_iff₀ (by norm_num) hd, one_mul,
      ← Int.cast_abs]
    constructor
    · intro h
      have h' : (value.den : Int) < |value.num * 100000000 -
          round (value * 100000000) * value.den| * 10000 := by
        rw [Int.abs_eq_natAbs]
        omega
      exact_mod_cast h'
    · intro h
      have h' : (value.den : Int) < |value.num * 100000000 -
          round (value * 100000000) * value.den| * 10000 := by
        exact_mod_cast h
      rw [Int.abs_eq_natAbs] at h'
      omega
  have hdef : bitcoinQuantityFromBitcoin value =
      if 10000 * ((value.num * 100000000) -
          ((2 * (value.num * 100000000) + value.den) / (2 * (value.den : Int))) *
            value.den).natAbs > value.den
      then .error .precisionLoss
      else .ok ((2 * (value.num * 100000000) + value.den) /
        (2 * (value.den : Int))).toNat := rfl
  rw [hdef, hround]
  split_ifs with h1 h2 h3
  · rfl
  · exact absurd (hcond.mp h1) h2
  · exact absurd (hcond.mpr h3) h1
  · rfl

/-- `oneSatoshi` is the rational `1 / 10^8`. -/
theorem oneSatoshi_eq : oneSatoshi = 1 / 100000000 := by
  rw [← Rat.num_div_den oneSatoshi]
  norm_num [oneSatoshi]

/-- `oneNineDigits` is the rational `1 / 10^9`. -/
theorem oneNineDigits_eq : oneNineDigits = 1 / 1000000000 := by
  rw [← Rat.num_div_den oneNineDigits]
  norm_num [oneNineDigits]

/-- The rounding delta of a nine-fractional-digit amount exceeds the
epsilon. -/
theorem c3BadDelta :
    1 / 10000 < |c3OutBad.value * 100000000 -
      (round (c3OutBad.value * 100000000) : ℚ)| := by
  have h1 : c3OutBad.value * 100000000 = 1 / 10 := by
    show oneNineDigits * 100000000 = 1 / 10
    rw [oneNineDigits_eq]
    norm_num
  rw [h1]
  have h2 : round ((1 : ℚ) / 10) = 0 := by
    rw [round_eq]
    norm_num
  rw [h2, Int.cast_zero, sub_zero, abs_of_nonneg (by norm_num : (0 : ℚ) ≤ 1 / 10)]
  norm_num

/-- The rounding delta of a whole-coin amount is zero. -/
theorem c3ZeroDelta :
    |c3Out50.value * 100000000 - (round (c3Out50.value * 100000000) : ℚ)| ≤ 1 / 10000 := by
  have h1 : c3Out50.value * 100000000 = ((5000000000 : ℤ) : ℚ) := by
    show (50 : ℚ) * 100000000 = ((5000000000 : ℤ) : ℚ)
    norm_num
  rw [h1, round_intCast]
  norm_num

/-! ## C1 — input-variant exclusivity at construction time -/

/-- **C1** (counterexample): deserialization admits a wire input carrying
BOTH the coinbase data and a previous-output reference, and one carrying
NEITHER; both are accepted (construction does not fail) and the resulting
values violate the exactly-one-case property. -/
theorem c1_counterexample :
    deserializeTransactionInput c1WireBoth = Except.ok c1BothIn ∧
    ¬ ExactlyOneCase c1BothIn ∧
    deserializeTransactionInput c1WireNeither = Except.ok c1NeitherIn ∧
    ¬ ExactlyOneCase c1NeitherIn := by
  refine ⟨rfl, ?_, rfl, ?_⟩ <;> decide

/-- **C1** (amended): the deserialization of a wire input enforces no
exclusivity between the coinbase data and the previous-output fields —
any combination (both cases populated, or neither) is admitted verbatim
whenever the required `sequence` key is present, the witness defaulting
to empty; only a missing `sequence` key fails. Case mismatch surfaces
only at accessor time. -/
theorem c1_no_exclusivity_check (w : WireTransactionInput) :
    (w.sequence = none →
      deserializeTransactionInput w = Except.error (.missingField "sequence")) ∧
    (∀ s, w.sequence = some s →
      deserializeTransactionInput w =
        Except.ok { txid := w.txid, vout := w.vout, script_sig := w.script_sig,
                    coinbase := w.coinbase, sequence := s,
                    witness := w.txinwitness.getD [] }) := by
  constructor
  · intro h
    unfold deserializeTransactionInput
    rw [h]
  · intro s h
    unfold deserializeTransactionInput
    rw [h]

/-- Witness for C1's amended theorem: the missing-`sequence` failure and
the unvalidated both-cases acceptance, at concrete wire objects. -/
theorem c1_witness :
    deserializeTransactionInput c1WireNoSeq = Except.error (.missingField "sequence") ∧
    deserializeTransactionInput c1WireBoth = Except.ok c1BothIn :=
  ⟨(c1_no_exclusivity_check c1WireNoSeq).1 rfl,
   (c1_no_exclusivity_check c1WireBoth).2 4294967295 rfl⟩

/-! ## C2 — conversion of the two input cases to the binary input -/

/-- **C2** (counterexample): converting a Coinbase-case input whose
coinbase data is the hex string `ab` (the byte `171`) yields an EMPTY
input script, not the coinbase bytes: the coinbase data is dropped by the
conversion, refuting "script set to the raw coinbase bytes interpreted as
a script". -/
theorem c2_counterexample :
    txInFromTransactionInput c2CoinbaseIn =
      Except.ok { previous_output := OutPoint.null, script_sig := [],
                  sequence := 4294967295, witness := [] } ∧
    std_hex.decode "ab" = some [171] ∧
    (txInFromTransactionInput c2CoinbaseIn).map TxIn.script_sig ≠
      Except.ok [171] := by
  refine ⟨by decide, by decide, by decide⟩

/-- **C2** (amended): converting a Coinbase-case input sets the previous
output to the all-zero/max-index null reference and the script to the
(absent) `scriptSig` field's default, the EMPTY script — the raw coinbase
bytes are not used; converting a Standard-case input copies the
previous-output reference and the signature script verbatim. Witness
entries are hex-decoded in both cases. -/
theorem c2_conversion_cases (i : TransactionInput) (ws : List (List Nat))
    (hw : mapMExcept decodeWitnessItem i.witness = Except.ok ws) :
    (IsCoinbaseInput i →
      txInFromTransactionInput i =
        Except.ok { previous_output := OutPoint.null, script_sig := [],
                    sequence := i.sequence, witness := ws }) ∧
    (∀ txid vout s, i.txid = some txid → i.vout = some vout →
      i.script_sig = some s →
      txInFromTransactionInput i =
        Except.ok { previous_output := { txid := txid, vout := vout },
                    script_sig := s.hex, sequence := i.sequence,
                    witness := ws }) := by
  constructor
  · rintro ⟨_, ht, _, hs⟩
    unfold txInFromTransactionInput
    rw [ht, hs, hw]
    rfl
  · intro txid vout s ht hv hs
    unfold txInFromTransactionInput
    rw [ht, hv, hs, hw]
    rfl

/-- Witness for C2's amended theorem: the Coinbase case drops the
coinbase data (empty script), the Standard case copies txid, vout and
script verbatim and hex-decodes the witness. -/
theorem c2_witness :
    txInFromTransactionInput c2CoinbaseIn =
      Except.ok { previous_output := OutPoint.null, script_sig := [],
                  sequence := 4294967295, witness := [] } ∧
    txInFromTransactionInput c2StandardIn =
      Except.ok { previous_output := { txid := sampleTxid, vout := 1 },
                  script_sig := [2, 3], sequence := 4294967294,
                  witness := [[171]] } :=
  ⟨(c2_conversion_cases c2CoinbaseIn [] (by decide)).1 (by decide),
   (c2_conversion_cases c2StandardIn [[171]] (by decide)).2 sampleTxid 1
     { asm := "", hex := [2, 3] } rfl rfl rfl⟩

/-! ## C3 — the fractional-amount conversion -/

/-- **C3**: the amount conversion used by the output conversion scales by
`10^8` and rounds to the nearest integer: a delta within the epsilon
yields the rounded amount, `50.0` coins yield exactly `5_000_000_000`
minimal units, `0.00000001` yields exactly `1`, and a rounding delta
exceeding the epsilon fails with `PrecisionLoss` instead of returning a
truncated amount. -/
theorem c3_amount_conversion (o : TransactionOutput) :
    (|o.value * 100000000 - (round (o.value * 100000000) : ℚ)| ≤ 1 / 10000 →
      txOutFromTransactionOutput o =
        Except.ok { value := (round (o.value * 100000000)).toNat,
                    script_pubkey := o.script_pub_key.hex }) ∧
    (o.value = 50 →
      txOutFromTransactionOutput o =
        Except.ok { value := 5000000000,
                    script_pubkey := o.script_pub_key.hex }) ∧
    (o.value = 1 / 100000000 →
      txOutFromTransactionOutput o =
        Except.ok { value := 1, script_pubkey := o.script_pub_key.hex }) ∧
    (1 / 10000 < |o.value * 100000000 - (round (o.value * 100000000) : ℚ)| →
      txOutFromTransactionOutput o = Except.error ConvFailure.precisionLoss) := by
  have hdef : txOutFromTransactionOutput o =
      (bitcoinQuantityFromBitcoin o.value >>= fun value =>
        Except.ok { value := value, script_pubkey := o.script_pub_key.hex }) := rfl
  refine ⟨?_, ?_, ?_, ?_⟩
  · intro h
    rw [hdef, bitcoinQuantityFromBitcoin_eq, if_neg (not_lt.mpr h)]
    rfl
  · intro h
    have h50 : o.value * 100000000 = ((5000000000 : ℤ) : ℚ) := by
      rw [h]; norm_num
    have hr : round (o.value * 100000000) = 5000000000 := by
      rw [h50, round_intCast]
    rw [hdef, bitcoinQuantityFromBitcoin_eq, hr, h50]
    rw [if_neg (by push_cast; norm_num)]
    rfl
  · intro h
    have h1 : o.value * 100000000 = ((1 : ℤ) : ℚ) := by
      rw [h]; norm_num
    have hr : round (o.value * 100000000) = 1 := by
      rw [h1, round_intCast]
    rw [hdef, bitcoinQuantityFromBitcoin_eq, hr, h1]
    rw [if_neg (by push_cast; norm_num)]
    rfl
  · intro h
    rw [hdef, bitcoinQuantityFromBitcoin_eq, if_pos h]
    rfl

/-- Witness for C3: the four conversion behaviors at concrete outputs —
in-epsilon rounding, the two exact examples, and the nine-fractional-digit
precision-loss failure. -/
theorem c3_witness :
    txOutFromTransactionOutput c3Out50 =
      Except.ok { value := (round (c3Out50.value * 100000000)).toNat,
                  script_pubkey := c3Out50.script_pub_key.hex } ∧
    txOutFromTransactionOutput c3Out50 =
      Except.ok { value := 5000000000, script_pubkey := [] } ∧
    txOutFromTransactionOutput c3OutSat =
      Except.ok { value := 1, script_pubkey := [] } ∧
    txOutFromTransactionOutput c3OutBad = Except.error ConvFailure.precisionLoss :=
  ⟨(c3_amount_conversion c3Out50).1 c3ZeroDelta,
   (c3_amount_conversion c3Out50).2.1 rfl,
   (c3_amount_conversion c3OutSat).2.2.1 oneSatoshi_eq,
   (c3_amount_conversion c3OutBad).2.2.2 c3BadDelta⟩

/-! ## C4 — assembling the binary transaction from the verbose view -/

/-- **C4** (counterexample): a node-consistent verbose coinbase
transaction whose hex field decodes to a transaction with the coinbase
bytes in the input script, while converting the verbose value's own
fields yields an empty input script — the two binary transactions are NOT
bit-identical. -/
theorem c4_counterexample :
    bitcoinTransactionFromVerbose c4Verbose = Except.ok c4ConvTx ∧
    decodeTx c4Verbose.hex.hexStr = some c4HexTx ∧
    c4ConvTx ≠ c4HexTx := by
  refine ⟨by decide, by decide, by decide⟩

/-- **C4** (amended): the conversion builds the binary transaction from
the value's version, lock time, inputs and outputs alone — every
wire-layer metadata field (txid, hash, size, vsize, hex, block hash,
confirmations, timestamps) is discarded, in the sense that changing them
arbitrarily leaves the result unchanged. The result is NOT guaranteed
bit-identical to decoding the value's hex field: for coinbase inputs the
coinbase data is dropped (see the counterexample), so the equivalence
fails even on node-consistent values. -/
theorem c4_metadata_discarded (v : VerboseRawTransaction)
    (txid : TransactionId) (hash : String) (size vsize : Nat)
    (hex : SerializedRawTransaction) (blockhash : BlockHash)
    (confirmations : Int) (time blocktime : Nat) :
    bitcoinTransactionFromVerbose
      { v with txid := txid, hash := hash, size := size, vsize := vsize,
               hex := hex, blockhash := blockhash,
               confirmations := confirmations, time := time,
               blocktime := blocktime } =
      bitcoinTransactionFromVerbose v := rfl

/-! ## C6 — accessor failure on the wrong variant case -/

/-- **C6**: on a Coinbase-case input the txid, vout and script-sig
accessors fail with the variant-mismatch panic (abort-style `expect`,
embedded as the error channel carrying the panic message); on a
Standard-case input the coinbase accessor fails likewise; the sequence
and witness accessors succeed on every input. -/
theorem c6_accessors (i : TransactionInput) :
    (IsCoinbaseInput i →
      i.txidAccessor = Except.error "This is a coinbase transaction." ∧
      i.voutAccessor = Except.error "This is a coinbase transaction." ∧
      i.scriptSigAccessor = Except.error "This is a coinbase transaction.") ∧
    (IsStandardInput i →
      i.coinbaseAccessor = Except.error "This is NOT a coinbase transaction.") ∧
    i.sequenceAccessor = Except.ok i.sequence ∧
    i.witnessAccessor = Except.ok i.witness := by
  refine ⟨?_, ?_, rfl, rfl⟩
  · rintro ⟨_, ht, hv, hs⟩
    refine ⟨?_, ?_, ?_⟩
    · unfold TransactionInput.txidAccessor
      rw [ht]
    · unfold TransactionInput.voutAccessor
      rw [hv]
    · unfold TransactionInput.scriptSigAccessor
      rw [hs]
  · rintro ⟨_, _, hc⟩
    unfold TransactionInput.coinbaseAccessor
    rw [hc]

/-- Witness for C6: the wrong-case accessor failures at one concrete
input of each case. -/
theorem c6_witness :
    c6CoinbaseIn.txidAccessor = Except.error "This is a coinbase transaction." ∧
    c6StandardIn.coinbaseAccessor = Except.error "This is NOT a coinbase transaction." :=
  ⟨((c6_accessors c6CoinbaseIn).1 (by decide)).1,
   (c6_accessors c6StandardIn).2.1 (by decide)⟩

/-! ## C7 — malformed witness hex during conversion -/

/-- **C7** (counterexample): converting an input with the malformed
witness entry `zz` fails by PANICKING (`expect`, abort-style, with the
source's message) — it does not return the spec's recoverable `HexDecode`
error value, refuting "returned to the caller as an explicit failure
result". -/
theorem c7_counterexample :
    txInFromTransactionInput c7BadWitnessIn =
      Except.error (ConvFailure.panicMsg "BitcoinRPC returned invalid hex") ∧
    std_hex.decode "zz" = none ∧
    txInFromTransactionInput c7BadWitnessIn ≠
      Except.error ConvFailure.hexDecodeErr := by
  refine ⟨by decide, by decide, by decide⟩

/-- **C7** (amended): when the previous-output fields do not themselves
panic first, a malformed hex string among the witness entries makes the
conversion abort with the invalid-hex panic — the conversion never
succeeds with a defaulted witness, but the failure is a panic, not a
recoverable error result. -/
theorem c7_malformed_witness_panics (i : TransactionInput)
    (hw : ∃ w ∈ i.witness, std_hex.decode w = none)
    (hp : i.txid = none ∨ i.vout ≠ none) :
    txInFromTransactionInput i =
      Except.error (ConvFailure.panicMsg "BitcoinRPC returned invalid hex") := by
  have hmap := mapMExcept_decodeWitness_error i.witness hw
  unfold txInFromTransactionInput
  rcases hp with h | h
  · rw [h, hmap]
    rfl
  · cases ht : i.txid with
    | none =>
      rw [hmap]
      rfl
    | some x =>
      cases hv : i.vout with
      | none => exact absurd hv h
      | some v =>
        rw [hmap]
        rfl

/-- Witness for C7's amended theorem: the panic at the concrete
`zz`-witness input. -/
theorem c7_witness :
    txInFromTransactionInput c7BadWitnessIn =
      Except.error (ConvFailure.panicMsg "BitcoinRPC returned invalid hex") :=
  c7_malformed_witness_panics c7BadWitnessIn
    ⟨"zz", by decide, by decide⟩ (Or.inl rfl)

/-! ## C8 — element-wise, order-preserving aggregate conversion -/

/-- **C8**: a successful conversion of a verbose transaction copies the
version and lock time verbatim and converts the input and output lists
element-wise in their original order — the result lists have the same
lengths and their `k`-th elements are the conversions of the `k`-th
source elements, so nothing is reordered, inserted, deleted or
deduplicated. -/
theorem c8_elementwise (v : VerboseRawTransaction) (t : BitcoinTransaction)
    (h : bitcoinTransactionFromVerbose v = Except.ok t) :
    t.version = v.version ∧ t.lock_time = v.locktime ∧
    mapMExcept txInFromTransactionInput v.vin = Except.ok t.input ∧
    mapMExcept txOutFromTransactionOutput v.vout = Except.ok t.output ∧
    t.input.length = v.vin.length ∧ t.output.length = v.vout.length ∧
    (∀ k (hk : k < v.vin.length) (hk2 : k < t.input.length),
      txInFromTransactionInput (v.vin.get ⟨k, hk⟩) =
        Except.ok (t.input.get ⟨k, hk2⟩)) ∧
    (∀ k (hk : k < v.vout.length) (hk2 : k < t.output.length),
      txOutFromTransactionOutput (v.vout.get ⟨k, hk⟩) =
        Except.ok (t.output.get ⟨k, hk2⟩)) := by
  have hdef : bitcoinTransactionFromVerbose v =
      (mapMExcept txInFromTransactionInput v.vin >>= fun input =>
        mapMExcept txOutFromTransactionOutput v.vout >>= fun output =>
          Except.ok { version := v.version, lock_time := v.locktime,
                      input := input, output := output }) := rfl
  rw [hdef] at h
  cases hin : mapMExcept txInFromTransactionInput v.vin with
  | error e => rw [hin, exceptBindError] at h; cases h
  | ok input =>
    rw [hin, exceptBindOk] at h
    cases hout : mapMExcept txOutFromTransactionOutput v.vout with
    | error e => rw [hout, exceptBindError] at h; cases h
    | ok output =>
      rw [hout, exceptBindOk] at h
      cases h
      exact ⟨rfl, rfl, rfl, rfl, mapMExcept_ok_length hin, mapMExcept_ok_length hout,
        fun k hk hk2 => mapMExcept_ok_get hin k hk hk2,
        fun k hk hk2 => mapMExcept_ok_get hout k hk hk2⟩

/-- Witness for C8: the verbatim version and lock-time copies at a
concrete verbose transaction. -/
theorem c8_witness :
    c8Tx.version = c8Verbose.version ∧ c8Tx.lock_time = c8Verbose.locktime :=
  ⟨(c8_elementwise c8Verbose c8Tx (by decide)).1,
   (c8_elementwise c8Verbose c8Tx (by decide)).2.1⟩

/-! ## C9 — previous-output handling and the missing-vout panic -/

/-- **C9**: when the txid is absent the conversion uses the null
previous-output reference and ignores any vout value entirely (the result
is unchanged under arbitrary vout); when the txid is present but the vout
is absent the conversion aborts with the incomplete-previous-output panic
rather than returning a recoverable error, so the conversion is total
only under the precondition that a present txid implies a present
vout. -/
theorem c9_prevout_handling (i : TransactionInput) :
    (i.txid = none → ∀ v, txInFromTransactionInput { i with vout := v } =
      txInFromTransactionInput i) ∧
    (i.txid = none → ∀ t, txInFromTransactionInput i = Except.ok t →
      t.previous_output = OutPoint.null) ∧
    (∀ x, i.txid = some x → i.vout = none →
      txInFromTransactionInput i =
        Except.error (ConvFailure.panicMsg
          "BitcoinRPC returned incomplete previous transaction output")) := by
  refine ⟨?_, ?_, ?_⟩
  · intro ht v
    unfold txInFromTransactionInput
    rw [ht]
  · intro ht t h
    unfold txInFromTransactionInput at h
    rw [ht, exceptBindOk] at h
    cases hmap : mapMExcept decodeWitnessItem i.witness with
    | error e => rw [hmap, exceptBindError] at h; cases h
    | ok ws =>
      rw [hmap, exceptBindOk] at h
      cases h
      rfl
  · intro x ht hv
    unfold txInFromTransactionInput
    rw [ht, hv]
    rfl

/-- Witness for C9: vout-insensitivity with the txid absent, the null
reference in the result, and the panic with the txid present but the vout
absent, at concrete inputs. -/
theorem c9_witness :
    txInFromTransactionInput { c9NoTxidIn with vout := none } =
      txInFromTransactionInput c9NoTxidIn ∧
    TxIn.previous_output { previous_output := OutPoint.null, script_sig := [],
                           sequence := 5, witness := [] } = OutPoint.null ∧
    txInFromTransactionInput c9MissingVoutIn =
      Except.error (ConvFailure.panicMsg
        "BitcoinRPC returned incomplete previous transaction output") :=
  ⟨(c9_prevout_handling c9NoTxidIn).1 rfl none,
   (c9_prevout_handling c9NoTxidIn).2.1 rfl
     { previous_output := OutPoint.null, script_sig := [],
       sequence := 5, witness := [] } (by decide),
   (c9_prevout_handling c9MissingVoutIn).2.2 sampleTxid rfl rfl⟩

/-! ## C10 — the funding-options builder methods -/

/-- **C10**: each builder method returns the receiver with exactly its
one named field set to `some` of the supplied argument; the other six
fields are returned unchanged, for every receiver and argument. -/
theorem c10_builder_frame (o : FundingOptions) :
    (∀ a, (o.with_change_address a).change_address = some a ∧
      (o.with_change_address a).change_position = o.change_position ∧
      (o.with_change_address a).include_watching = o.include_watching ∧
      (o.with_change_address a).lock_unspents = o.lock_unspents ∧
      (o.with_change_address a).reserve_change_key = o.reserve_change_key ∧
      (o.with_change_address a).fee_rate = o.fee_rate ∧
      (o.with_change_address a).subtract_fee_from_outputs = o.subtract_fee_from_outputs) ∧
    (∀ p, (o.with_change_position p).change_position = some p ∧
      (o.with_change_position p).change_address = o.change_address ∧
      (o.with_change_position p).include_watching = o.include_watching ∧
      (o.with_change_position p).lock_unspents = o.lock_unspents ∧
      (o.with_change_position p).reserve_change_key = o.reserve_change_key ∧
      (o.with_change_position p).fee_rate = o.fee_rate ∧
      (o.with_change_position p).subtract_fee_from_outputs = o.subtract_fee_from_outputs) ∧
    (∀ b, (o.with_include_watching b).include_watching = some b ∧
      (o.with_include_watching b).change_address = o.change_address ∧
      (o.with_include_watching b).change_position = o.change_position ∧
      (o.with_include_watching b).lock_unspents = o.lock_unspents ∧
      (o.with_include_watching b).reserve_change_key = o.reserve_change_key ∧
      (o.with_include_watching b).fee_rate = o.fee_rate ∧
      (o.with_include_watching b).subtract_fee_from_outputs = o.subtract_fee_from_outputs) ∧
    (∀ b, (o.with_lock_unspents b).lock_unspents = some b ∧
      (o.with_lock_unspents b).change_address = o.change_address ∧
      (o.with_lock_unspents b).change_position = o.change_position ∧
      (o.with_lock_unspents b).include_watching = o.include_watching ∧
      (o.with_lock_unspents b).reserve_change_key = o.reserve_change_key ∧
      (o.with_lock_unspents b).fee_rate = o.fee_rate ∧
      (o.with_lock_unspents b).subtract_fee_from_outputs = o.subtract_fee_from_outputs) ∧
    (∀ b, (o.with_reserve_change_key b).reserve_change_key = some b ∧
      (o.with_reserve_change_key b).change_address = o.change_address ∧
      (o.with_reserve_change_key b).change_position = o.change_position ∧
      (o.with_reserve_change_key b).include_watching = o.include_watching ∧
      (o.with_reserve_change_key b).lock_unspents = o.lock_unspents ∧
      (o.with_reserve_change_key b).fee_rate = o.fee_rate ∧
      (o.with_reserve_change_key b).subtract_fee_from_outputs = o.subtract_fee_from_outputs) ∧
    (∀ f, (o.with_fee_rate f).fee_rate = some f ∧
      (o.with_fee_rate f).change_address = o.change_address ∧
      (o.with_fee_rate f).change_position = o.change_position ∧
      (o.with_fee_rate f).include_watching = o.include_watching ∧
      (o.with_fee_rate f).lock_unspents = o.lock_unspents ∧
      (o.with_fee_rate f).reserve_change_key = o.reserve_change_key ∧
      (o.with_fee_rate f).subtract_fee_from_outputs = o.subtract_fee_from_outputs) ∧
    (∀ l, (o.with_subtract_fee_from_outputs l).subtract_fee_from_outputs = some l ∧
      (o.with_subtract_fee_from_outputs l).change_address = o.change_address ∧
      (o.with_subtract_fee_from_outputs l).change_position = o.change_position ∧
      (o.with_subtract_fee_from_outputs l).include_watching = o.include_watching ∧
      (o.with_subtract_fee_from_outputs l).lock_unspents = o.lock_unspents ∧
      (o.with_subtract_fee_from_outputs l).reserve_change_key = o.reserve_change_key ∧
      (o.with_subtract_fee_from_outputs l).fee_rate = o.fee_rate) :=
  ⟨fun _ => ⟨rfl, rfl, rfl, rfl, rfl, rfl, rfl⟩,
   fun _ => ⟨rfl, rfl, rfl, rfl, rfl, rfl, rfl⟩,
   fun _ => ⟨rfl, rfl, rfl, rfl, rfl, rfl, rfl⟩,
   fun _ => ⟨rfl, rfl, rfl, rfl, rfl, rfl, rfl⟩,
   fun _ => ⟨rfl, rfl, rfl, rfl, rfl, rfl, rfl⟩,
   fun _ => ⟨rfl, rfl, rfl, rfl, rfl, rfl, rfl⟩,
   fun _ => ⟨rfl, rfl, rfl, rfl, rfl, rfl, rfl⟩⟩

/-! ## Codec lemmas, decoding-after-encoding direction

Each parser consumes exactly the encoding it is paired with, returning
the encoded value and the untouched tail. -/

/-- `parseBytes` consumes exactly the prepended bytes. -/
theorem parseBytes_encode : ∀ (xs r : List Nat),
    parseBytes xs.length (xs ++ r) = some (xs, r) := by
  intro xs
  induction xs with
  | nil => intro r; rfl
  | cons b bs ih =>
    intro r
    simp [parseBytes, ih]

/-- `parseU16` inverts `encodeU16`. -/
theorem parseU16_encode (n : Nat) (h : n < 65536) (r : List Nat) :
    parseU16 (encodeU16 n ++ r) = some (n, r) := by
  simp [encodeU16, parseU16]
  omega

/-- `parseU32` inverts `encodeU32`. -/
theorem parseU32_encode (n : Nat) (h : n < 4294967296) (r : List Nat) :
    parseU32 (encodeU32 n ++ r) = some (n, r) := by
  simp [encodeU32, parseU32]
  omega

/-- `parseU64` inverts `encodeU64`. -/
theorem parseU64_encode (n : Nat) (h : n < 18446744073709551616) (r : List Nat) :
    parseU64 (encodeU64 n ++ r) = some (n, r) := by
  simp [encodeU64, parseU64]
  omega

/-- `parseVarInt` inverts the shortest-form `encodeVarInt`. -/
theorem parseVarInt_encode (n : Nat) (h : n < 18446744073709551616) (r : List Nat) :
    parseVarInt (encodeVarInt n ++ r) = some (n, r) := by
  unfold encodeVarInt
  split_ifs with h1 h2 h3
  · simp [parseVarInt, h1]
  · rw [List.cons_append]
    simp only [parseVarInt, parseU16_encode n h2 r]
    rw [if_neg (by decide), if_pos (by decide), if_pos (by omega)]
  · rw [List.cons_append]
    simp only [parseVarInt, parseU32_encode n h3 r]
    rw [if_neg (by decide), if_neg (by decide), if_pos (by decide), if_pos (by omega)]
  · rw [List.cons_append]
    simp only [parseVarInt, parseU64_encode n h r]
    rw [if_neg (by decide), if_neg (by decide), if_neg (by decide), if_pos (by decide),
      if_pos (by omega)]

/-- `parseVarBytes` inverts `encodeVarBytes`. -/
theorem parseVarBytes_encode (b : List Nat) (h : b.length < 18446744073709551616)
    (r : List Nat) :
    parseVarBytes (encodeVarBytes b ++ r) = some (b, r) := by
  unfold encodeVarBytes parseVarBytes
  rw [List.append_assoc, parseVarInt_encode b.length h]
  exact parseBytes_encode b r

/-- `parseCount` inverts the concatenation of `n` element encodings,
with each element parsed through `g` (the per-element round trip). -/
theorem parseCount_encode {α β : Type} (p : List Nat → Option (β × List Nat))
    (enc : α → List Nat) (g : α → β) :
    ∀ (xs : List α) (r : List Nat),
      (∀ x ∈ xs, ∀ r', p (enc x ++ r') = some (g x, r')) →
      parseCount p xs.length ((xs.map enc).flatten ++ r) = some (xs.map g, r) := by
  intro xs
  induction xs with
  | nil => intro r _; rfl
  | cons x xs ih =>
    intro r hall
    have hx := hall x (List.mem_cons_self x xs)
    have hxs : ∀ y ∈ xs, ∀ r', p (enc y ++ r') = some (g y, r') :=
      fun y hy => hall y (List.mem_cons_of_mem x hy)
    simp only [List.map_cons, List.flatten_cons, List.length_cons, List.append_assoc]
    unfold parseCount
    rw [hx]
    show (match parseCount p xs.length ((List.map enc xs).flatten ++ r) with
      | some (xs1, r1) => some (g x :: xs1, r1)
      | none => none) = some (g x :: List.map g xs, r)
    rw [ih r hxs]

/-- `parseTxIn` inverts `encodeTxIn`, producing the input with an empty
witness stack (the witness is serialized separately). -/
theorem parseTxIn_encode (i : TxIn) (r : List Nat)
    (h1 : i.previous_output.txid.length = 32)
    (h2 : i.previous_output.vout < 4294967296)
    (h3 : i.script_sig.length < 18446744073709551616)
    (h4 : i.sequence < 4294967296) :
    parseTxIn (encodeTxIn i ++ r) = some ({ i with witness := [] }, r) := by
  unfold encodeTxIn
  simp only [List.append_assoc]
  simp only [parseTxIn]
  rw [← h1]
  simp only [parseBytes_encode, parseU32_encode _ h2, parseVarBytes_encode _ h3,
    parseU32_encode _ h4]

/-- `parseTxOut` inverts `encodeTxOut`. -/
theorem parseTxOut_encode (o : TxOut) (r : List Nat)
    (h1 : o.value < 18446744073709551616)
    (h2 : o.script_pubkey.length < 18446744073709551616) :
    parseTxOut (encodeTxOut o ++ r) = some (o, r) := by
  unfold encodeTxOut
  simp only [List.append_assoc]
  simp only [parseTxOut, parseU64_encode _ h1, parseVarBytes_encode _ h2]

/-- `parseWitness` inverts `encodeWitness`. -/
theorem parseWitness_encode (w : List (List Nat)) (r : List Nat)
    (h1 : w.length < 18446744073709551616)
    (h2 : ∀ x ∈ w, x.length < 18446744073709551616) :
    parseWitness (encodeWitness w ++ r) = some (w, r) := by
  unfold encodeWitness parseWitness
  simp only [List.append_assoc]
  have hcnt := parseCount_encode parseVarBytes encodeVarBytes id w r
    (fun x hx r' => parseVarBytes_encode x (h2 x hx) r')
  simp only [parseVarInt_encode _ h1, hcnt, List.map_id]

/-- Re-attaching the separately-parsed witness stacks reconstructs the
original input list. -/
theorem zipWith_setWitness (l : List TxIn) :
    List.zipWith setWitness (l.map fun i => { i with witness := [] })
      (l.map TxIn.witness) = l := by
  induction l with
  | nil => rfl
  | cons i l ih =>
    cases i with
    | mk po ss seq w => simp [setWitness, ih]

/-- In a transaction without segwit data, every input's witness stack is
empty. -/
theorem witness_empty_of_not_hasWitness {t : BitcoinTransaction}
    (h : hasWitness t = false) : ∀ i ∈ t.input, i.witness = [] := by
  intro i hi
  unfold hasWitness at h
  rw [List.any_eq_false] at h
  have := h i hi
  simp only [Bool.not_eq_true'] at this
  cases hw : i.witness with
  | nil => rfl
  | cons a as => rw [hw] at this; exact absurd rfl this

/-- Stripping already-empty witness stacks is the identity. -/
theorem map_strip_witness_id (l : List TxIn) (h : ∀ i ∈ l, i.witness = []) :
    (l.map fun i => { i with witness := [] }) = l := by
  induction l with
  | nil => rfl
  | cons i l ih =>
    rw [List.map_cons, ih (fun j hj => h j (List.mem_cons_of_mem _ hj))]
    have hw := h i (List.mem_cons_self i l)
    cases i with
    | mk po ss seq w =>
      simp only at hw
      rw [hw]

/-- Unpacking of the Boolean well-formedness predicate. -/
theorem wellFormedTx_spec {t : BitcoinTransaction} (h : wellFormedTx t = true) :
    t.version < 4294967296 ∧ t.lock_time < 4294967296 ∧ t.input ≠ [] ∧
    t.input.length < 18446744073709551616 ∧
    t.output.length < 18446744073709551616 ∧
    (∀ i ∈ t.input, i.previous_output.txid.length = 32 ∧
      (∀ b ∈ i.previous_output.txid, b < 256) ∧
      i.previous_output.vout < 4294967296 ∧ i.sequence < 4294967296 ∧
      i.script_sig.length < 18446744073709551616 ∧
      (∀ b ∈ i.script_sig, b < 256) ∧
      i.witness.length < 18446744073709551616 ∧
      (∀ w ∈ i.witness, w.length < 18446744073709551616 ∧ ∀ b ∈ w, b < 256)) ∧
    (∀ o ∈ t.output, o.value < 18446744073709551616 ∧
      o.script_pubkey.length < 18446744073709551616 ∧
      ∀ b ∈ o.script_pubkey, b < 256) := by
  unfold wellFormedTx at h
  simp only [Bool.and_eq_true, List.all_eq_true, decide_eq_true_eq,
    Bool.not_eq_true'] at h
  obtain ⟨⟨⟨⟨⟨⟨hv, hl⟩, hne⟩, hni⟩, hno⟩, hins⟩, houts⟩ := h
  refine ⟨hv, hl, ?_, hni, hno, ?_, ?_⟩
  · intro hnil
    rw [hnil] at hne
    cases hne
  · intro i hi
    obtain ⟨⟨⟨⟨⟨⟨⟨ht, htb⟩, hvo⟩, hsq⟩, hsl⟩, hsb⟩, hwl⟩, hws⟩ := hins i hi
    exact ⟨ht, htb, hvo, hsq, hsl, hsb, hwl, fun w hw => hws w hw⟩
  · intro o ho
    obtain ⟨⟨hval, hpl⟩, hpb⟩ := houts o ho
    exact ⟨hval, hpl, hpb⟩

/-- The shortest-form encoding of a positive count starts with a nonzero
byte (so a legacy transaction is never mistaken for a segwit-marked
one). -/
theorem encodeVarInt_succ_head (n : Nat) (hn : 1 ≤ n) :
    ∃ m bs, encodeVarInt n = (m + 1) :: bs := by
  unfold encodeVarInt
  split_ifs with h1 h2 h3
  · cases n with
    | zero => omega
    | succ m => exact ⟨m, [], rfl⟩
  · exact ⟨252, encodeU16 n, rfl⟩
  · exact ⟨253, encodeU32 n, rfl⟩
  · exact ⟨254, encodeU64 n, rfl⟩

/-- `parseTxBytes` inverts `encodeTxBytes` on well-formed transactions,
leaving the tail untouched. -/
theorem parseTxBytes_encode (t : BitcoinTransaction) (h : wellFormedTx t = true)
    (r : List Nat) : parseTxBytes (encodeTxBytes t ++ r) = some (t, r) := by
  obtain ⟨hv, hl, hne, hni, hno, hins, houts⟩ := wellFormedTx_spec h
  have hinenc : ∀ i ∈ t.input, ∀ r',
      parseTxIn (encodeTxIn i ++ r') = some ({ i with witness := [] }, r') := by
    intro i hi r'
    obtain ⟨b1, _, b2, b4, b3, _, _, _⟩ := hins i hi
    exact parseTxIn_encode i r' b1 b2 b3 b4
  have houtenc : ∀ o ∈ t.output, ∀ r',
      parseTxOut (encodeTxOut o ++ r') = some (id o, r') := by
    intro o ho r'
    obtain ⟨b1, b2, _⟩ := houts o ho
    exact parseTxOut_encode o r' b1 b2
  have hcins := parseCount_encode parseTxIn encodeTxIn
    (fun i => { i with witness := [] }) t.input
  have hcouts := parseCount_encode parseTxOut encodeTxOut id t.output
  cases hw : hasWitness t with
  | true =>
    have hwitenc : ∀ w ∈ t.input.map TxIn.witness, ∀ r',
        parseWitness (encodeWitness w ++ r') = some (id w, r') := by
      intro w hwmem r'
      obtain ⟨i, hi, rfl⟩ := List.mem_map.mp hwmem
      obtain ⟨_, _, _, _, _, _, b7, b8⟩ := hins i hi
      exact parseWitness_encode i.witness r' b7 (fun x hx => (b8 x hx).1)
    have hcwits : ∀ rr, parseCount parseWitness t.input.length
        (((t.input.map TxIn.witness).map encodeWitness).flatten ++ rr) =
        some (t.input.map TxIn.witness, rr) := by
      intro rr
      have hx := parseCount_encode parseWitness encodeWitness id
        (t.input.map TxIn.witness) rr hwitenc
      rw [List.length_map, List.map_id] at hx
      exact hx
    unfold encodeTxBytes
    rw [hw]
    simp only [if_pos]
    rw [show (t.input.map fun i => encodeWitness i.witness) =
      ((t.input.map TxIn.witness).map encodeWitness) from by
        rw [List.map_map]; rfl]
    simp only [List.append_assoc, List.cons_append, List.nil_append]
    simp only [parseTxBytes, parseU32_encode _ hv]
    simp only [parseTxBytesSegwit, parseVarInt_encode _ hni, hcins _ hinenc,
      parseVarInt_encode _ hno, hcouts _ houtenc, List.map_id, hcwits,
      parseU32_encode _ hl]
    rw [zipWith_setWitness]
    rw [show (t.input.any fun i => !i.witness.isEmpty) = hasWitness t from rfl, hw]
    rfl
  | false =>
    have hstrip := map_strip_witness_id t.input (witness_empty_of_not_hasWitness hw)
    have hlen1 : 1 ≤ t.input.length := List.length_pos.mpr hne
    obtain ⟨m, bs, hvi⟩ := encodeVarInt_succ_head t.input.length hlen1
    unfold encodeTxBytes
    rw [hw]
    simp only [if_neg, Bool.false_eq_true, not_false_iff, List.nil_append]
    simp only [List.append_assoc, List.nil_append]
    simp only [parseTxBytes, parseU32_encode _ hv]
    rw [hvi, List.cons_append]
    show parseTxBytesLegacy t.version ((m + 1) ::
      (bs ++ ((t.input.map encodeTxIn).flatten ++
        (encodeVarInt t.output.length ++ ((t.output.map encodeTxOut).flatten ++
          (encodeU32 t.lock_time ++ r)))))) = some (t, r)
    rw [← List.cons_append, ← hvi]
    simp only [parseTxBytesLegacy, parseVarInt_encode _ hni, hcins _ hinenc, hstrip,
      parseVarInt_encode _ hno, hcouts _ houtenc, List.map_id,
      parseU32_encode _ hl]

/-! ## Codec lemmas, encoding-after-decoding direction

Each successful parse consumed exactly the canonical encoding of its
result: re-encoding the parsed value and prepending it to the unconsumed
tail restores the original bytes. -/

/-- Splitting a byte-bound over an append decomposition. -/
theorem bounds_of_append {l a r : List Nat} (h : l = a ++ r)
    (hb : ∀ b ∈ l, b < 256) : (∀ b ∈ a, b < 256) ∧ (∀ b ∈ r, b < 256) :=
  ⟨fun b hba => hb b (h ▸ List.mem_append.mpr (Or.inl hba)),
   fun b hbr => hb b (h ▸ List.mem_append.mpr (Or.inr hbr))⟩

/-- A successful `parseBytes` splits the input at exactly `n` bytes. -/
theorem parseBytes_eq : ∀ (n : Nat) (l xs r : List Nat),
    parseBytes n l = some (xs, r) → l = xs ++ r ∧ xs.length = n := by
  intro n
  induction n with
  | zero =>
    intro l xs r h
    unfold parseBytes at h
    cases h
    exact ⟨rfl, rfl⟩
  | succ m ih =>
    intro l xs r h
    cases l with
    | nil => cases h
    | cons b bl =>
      unfold parseBytes at h
      cases hrec : parseBytes m bl with
      | none => rw [hrec] at h; cases h
      | some p =>
        obtain ⟨ys, r1⟩ := p
        rw [hrec] at h
        cases h
        obtain ⟨he, hlen⟩ := ih bl ys _ hrec
        exact ⟨by rw [List.cons_append, he], by simp [hlen]⟩

/-- A successful `parseU16` consumed the canonical two-byte encoding. -/
theorem parseU16_eq (l : List Nat) (n : Nat) (r : List Nat)
    (h : parseU16 l = some (n, r)) (hb : ∀ b ∈ l, b < 256) :
    l = encodeU16 n ++ r ∧ n < 65536 := by
  match l, h with
  | b0 :: b1 :: r1, h =>
    cases h
    have h0 : b0 < 256 := hb b0 (by simp)
    have h1 : b1 < 256 := hb b1 (by simp)
    refine ⟨?_, by omega⟩
    simp only [encodeU16, List.cons_append, List.nil_append, List.cons.injEq]
    refine ⟨by omega, by omega, trivial⟩

/-- A successful `parseU32` consumed the canonical four-byte encoding. -/
theorem parseU32_eq (l : List Nat) (n : Nat) (r : List Nat)
    (h : parseU32 l = some (n, r)) (hb : ∀ b ∈ l, b < 256) :
    l = encodeU32 n ++ r ∧ n < 4294967296 := by
  match l, h with
  | b0 :: b1 :: b2 :: b3 :: r1, h =>
    cases h
    have h0 : b0 < 256 := hb b0 (by simp)
    have h1 : b1 < 256 := hb b1 (by simp)
    have h2 : b2 < 256 := hb b2 (by simp)
    have h3 : b3 < 256 := hb b3 (by simp)
    refine ⟨?_, by omega⟩
    simp only [encodeU32, List.cons_append, List.nil_append, List.cons.injEq]
    refine ⟨by omega, by omega, by omega, by omega, trivial⟩

/-- A successful `parseU64` consumed the canonical eight-byte encoding. -/
theorem parseU64_eq (l : List Nat) (n : Nat) (r : List Nat)
    (h : parseU64 l = some (n, r)) (hb : ∀ b ∈ l, b < 256) :
    l = encodeU64 n ++ r ∧ n < 18446744073709551616 := by
  match l, h with
  | b0 :: b1 :: b2 :: b3 :: b4 :: b5 :: b6 :: b7 :: r1, h =>
    cases h
    have h0 : b0 < 256 := hb b0 (by simp)
    have h1 : b1 < 256 := hb b1 (by simp)
    have h2 : b2 < 256 := hb b2 (by simp)
    have h3 : b3 < 256 := hb b3 (by simp)
    have h4 : b4 < 256 := hb b4 (by simp)
    have h5 : b5 < 256 := hb b5 (by simp)
    have h6 : b6 < 256 := hb b6 (by simp)
    have h7 : b7 < 256 := hb b7 (by simp)
    refine ⟨?_, by omega⟩
    simp only [encodeU64, List.cons_append, List.nil_append, List.cons.injEq]
    refine ⟨by omega, by omega, by omega, by omega, by omega, by omega, by omega,
      by omega, trivial⟩

/-- A successful `parseVarInt` consumed the canonical shortest-form
encoding (non-minimal forms are rejected). -/
theorem parseVarInt_eq (l : List Nat) (n : Nat) (r : List Nat)
    (h : parseVarInt l = some (n, r)) (hb : ∀ b ∈ l, b < 256) :
    l = encodeVarInt n ++ r ∧ n < 18446744073709551616 := by
  cases l with
  | nil => cases h
  | cons b r0 =>
    have hbr0 : ∀ x ∈ r0, x < 256 := fun x hx => hb x (List.mem_cons_of_mem _ hx)
    simp only [parseVarInt] at h
    split_ifs at h with h1 h2 h3 h4
    · cases h
      refine ⟨?_, by omega⟩
      unfold encodeVarInt
      rw [if_pos h1]
      rfl
    · cases hu : parseU16 r0 with
      | none => rw [hu] at h; cases h
      | some p =>
        obtain ⟨m, r1⟩ := p
        rw [hu] at h
        dsimp only at h
        split_ifs at h with hmin
        cases h
        obtain ⟨he, hlt⟩ := parseU16_eq r0 n _ hu hbr0
        refine ⟨?_, by omega⟩
        unfold encodeVarInt
        rw [if_neg (by omega), if_pos hlt, h2, he]
        rw [List.cons_append]
    · cases hu : parseU32 r0 with
      | none => rw [hu] at h; cases h
      | some p =>
        obtain ⟨m, r1⟩ := p
        rw [hu] at h
        dsimp only at h
        split_ifs at h with hmin
        cases h
        obtain ⟨he, hlt⟩ := parseU32_eq r0 n _ hu hbr0
        refine ⟨?_, by omega⟩
        unfold encodeVarInt
        rw [if_neg (by omega), if_neg (by omega), if_pos hlt, h3, he]
        rw [List.cons_append]
    · cases hu : parseU64 r0 with
      | none => rw [hu] at h; cases h
      | some p =>
        obtain ⟨m, r1⟩ := p
        rw [hu] at h
        dsimp only at h
        split_ifs at h with hmin
        cases h
        obtain ⟨he, hlt⟩ := parseU64_eq r0 n _ hu hbr0
        refine ⟨?_, hlt⟩
        unfold encodeVarInt
        rw [if_neg (by omega), if_neg (by omega), if_neg (by omega), h4, he]
        rw [List.cons_append]

/-- A successful `parseVarBytes` consumed a canonical length-prefixed
byte vector. -/
theorem parseVarBytes_eq (l : List Nat) (x : List Nat) (r : List Nat)
    (h : parseVarBytes l = some (x, r)) (hb : ∀ b ∈ l, b < 256) :
    l = encodeVarBytes x ++ r ∧ x.length < 18446744073709551616 := by
  unfold parseVarBytes at h
  cases hv : parseVarInt l with
  | none => rw [hv] at h; cases h
  | some p =>
    obtain ⟨n, r1⟩ := p
    rw [hv] at h
    obtain ⟨he1, hn⟩ := parseVarInt_eq l n r1 hv hb
    obtain ⟨he2, hxlen⟩ := parseBytes_eq n r1 x r h
    subst hxlen
    exact ⟨by rw [he1, he2, encodeVarBytes, List.append_assoc], hn⟩

/-- A successful `parseCount` consumed the concatenation of the `n`
element encodings, provided each element parse consumed its element's
encoding. -/
theorem parseCount_eq {β : Type} {p : List Nat → Option (β × List Nat)}
    {enc : β → List Nat}
    (hp : ∀ l x r, p l = some (x, r) → (∀ b ∈ l, b < 256) → l = enc x ++ r) :
    ∀ (n : Nat) (l : List Nat) (xs : List β) (r : List Nat),
      parseCount p n l = some (xs, r) → (∀ b ∈ l, b < 256) →
      l = (xs.map enc).flatten ++ r ∧ xs.length = n := by
  intro n
  induction n with
  | zero =>
    intro l xs r h _
    unfold parseCount at h
    cases h
    exact ⟨rfl, rfl⟩
  | succ m ih =>
    intro l xs r h hb
    unfold parseCount at h
    cases hx : p l with
    | none => rw [hx] at h; cases h
    | some q =>
      obtain ⟨x, r1⟩ := q
      rw [hx] at h
      dsimp only at h
      cases hrest : parseCount p m r1 with
      | none => rw [hrest] at h; cases h
      | some q2 =>
        obtain ⟨ys, r2⟩ := q2
        rw [hrest] at h
        cases h
        have he1 := hp l x r1 hx hb
        have hbr1 := (bounds_of_append he1 hb).2
        obtain ⟨he2, hlen⟩ := ih r1 ys _ hrest hbr1
        refine ⟨?_, by simp [hlen]⟩
        rw [he1, he2]
        simp [List.append_assoc]

/-- Every element produced by a successful `parseCount` satisfies any
property the element parser guarantees. -/
theorem parseCount_all {β : Type} {p : List Nat → Option (β × List Nat)}
    {Q : β → Prop} (hq : ∀ l x r, p l = some (x, r) → Q x) :
    ∀ (n : Nat) (l : List Nat) (xs : List β) (r : List Nat),
      parseCount p n l = some (xs, r) → ∀ x ∈ xs, Q x := by
  intro n
  induction n with
  | zero =>
    intro l xs r h x hx
    unfold parseCount at h
    cases h
    cases hx
  | succ m ih =>
    intro l xs r h x hx
    unfold parseCount at h
    cases hx1 : p l with
    | none => rw [hx1] at h; cases h
    | some q =>
      obtain ⟨y, r1⟩ := q
      rw [hx1] at h
      dsimp only at h
      cases hrest : parseCount p m r1 with
      | none => rw [hrest] at h; cases h
      | some q2 =>
        obtain ⟨ys, r2⟩ := q2
        rw [hrest] at h
        cases h
        cases List.mem_cons.mp hx with
        | inl heq => exact heq ▸ hq l y r1 hx1
        | inr hmem => exact ih r1 ys _ hrest x hmem

/-- A parsed input always carries an empty witness stack (the witness is
parsed separately). -/
theorem parseTxIn_witness (l : List Nat) (i : TxIn) (r : List Nat)
    (h : parseTxIn l = some (i, r)) : i.witness = [] := by
  unfold parseTxIn at h
  cases h32 : parseBytes 32 l with
  | none => rw [h32] at h; cases h
  | some p =>
    obtain ⟨txid, r1⟩ := p
    rw [h32] at h
    dsimp only at h
    cases hv : parseU32 r1 with
    | none => rw [hv] at h; cases h
    | some p2 =>
      obtain ⟨vout, r2⟩ := p2
      rw [hv] at h
      dsimp only at h
      cases hs : parseVarBytes r2 with
      | none => rw [hs] at h; cases h
      | some p3 =>
        obtain ⟨ss, r3⟩ := p3
        rw [hs] at h
        dsimp only at h
        cases hq : parseU32 r3 with
        | none => rw [hq] at h; cases h
        | some p4 =>
          obtain ⟨seq, r4⟩ := p4
          rw [hq] at h
          dsimp only at h
          cases h
          rfl

/-- A successful `parseTxIn` consumed the canonical input encoding. -/
theorem parseTxIn_eq (l : List Nat) (i : TxIn) (r : List Nat)
    (h : parseTxIn l = some (i, r)) (hb : ∀ b ∈ l, b < 256) :
    l = encodeTxIn i ++ r := by
  unfold parseTxIn at h
  cases h32 : parseBytes 32 l with
  | none => rw [h32] at h; cases h
  | some p =>
    obtain ⟨txid, r1⟩ := p
    rw [h32] at h
    dsimp only at h
    cases hv : parseU32 r1 with
    | none => rw [hv] at h; cases h
    | some p2 =>
      obtain ⟨vout, r2⟩ := p2
      rw [hv] at h
      dsimp only at h
      cases hs : parseVarBytes r2 with
      | none => rw [hs] at h; cases h
      | some p3 =>
        obtain ⟨ss, r3⟩ := p3
        rw [hs] at h
        dsimp only at h
        cases hq : parseU32 r3 with
        | none => rw [hq] at h; cases h
        | some p4 =>
          obtain ⟨seq, r4⟩ := p4
          rw [hq] at h
          dsimp only at h
          cases h
          obtain ⟨he1, _⟩ := parseBytes_eq 32 l txid r1 h32
          have hb1 := (bounds_of_append he1 hb).2
          obtain ⟨he2, _⟩ := parseU32_eq r1 vout r2 hv hb1
          have hb2 := (bounds_of_append he2 hb1).2
          obtain ⟨he3, _⟩ := parseVarBytes_eq r2 ss r3 hs hb2
          have hb3 := (bounds_of_append he3 hb2).2
          obtain ⟨he4, _⟩ := parseU32_eq r3 seq _ hq hb3
          rw [he1, he2, he3, he4]
          simp [encodeTxIn, List.append_assoc]

/-- A successful `parseTxOut` consumed the canonical output encoding. -/
theorem parseTxOut_eq (l : List Nat) (o : TxOut) (r : List Nat)
    (h : parseTxOut l = some (o, r)) (hb : ∀ b ∈ l, b < 256) :
    l = encodeTxOut o ++ r := by
  unfold parseTxOut at h
  cases hv : parseU64 l with
  | none => rw [hv] at h; cases h
  | some p =>
    obtain ⟨value, r1⟩ := p
    rw [hv] at h
    dsimp only at h
    cases hs : parseVarBytes r1 with
    | none => rw [hs] at h; cases h
    | some p2 =>
      obtain ⟨script, r2⟩ := p2
      rw [hs] at h
      dsimp only at h
      cases h
      obtain ⟨he1, _⟩ := parseU64_eq l value r1 hv hb
      have hb1 := (bounds_of_append he1 hb).2
      obtain ⟨he2, _⟩ := parseVarBytes_eq r1 script _ hs hb1
      rw [he1, he2]
      simp [encodeTxOut, List.append_assoc]

/-- A successful `parseWitness` consumed the canonical witness-stack
encoding. -/
theorem parseWitness_eq (l : List Nat) (w : List (List Nat)) (r : List Nat)
    (h : parseWitness l = some (w, r)) (hb : ∀ b ∈ l, b < 256) :
    l = encodeWitness w ++ r := by
  unfold parseWitness at h
  cases hv : parseVarInt l with
  | none => rw [hv] at h; cases h
  | some p =>
    obtain ⟨n, r1⟩ := p
    rw [hv] at h
    obtain ⟨he1, _⟩ := parseVarInt_eq l n r1 hv hb
    have hb1 := (bounds_of_append he1 hb).2
    obtain ⟨he2, hlen⟩ := parseCount_eq
      (fun l x r h hb => (parseVarBytes_eq l x r h hb).1) n r1 w r h hb1
    rw [he1, he2, encodeWitness, ← hlen]
    simp [List.append_assoc]

/-- Re-encoding the inputs ignores the re-attached witness stacks. -/
theorem map_encodeTxIn_zipWith : ∀ (ins : List TxIn) (wits : List (List (List Nat))),
    ins.length = wits.length →
    (List.zipWith setWitness ins wits).map encodeTxIn = ins.map encodeTxIn := by
  intro ins
  induction ins with
  | nil => intro wits _; rfl
  | cons i ins ih =>
    intro wits h
    cases wits with
    | nil => cases h
    | cons w ws =>
      simp only [List.zipWith_cons_cons, List.map_cons]
      rw [ih ws (by simpa using h)]
      rfl

/-- The witness stacks of the re-assembled inputs are the parsed
stacks. -/
theorem map_witness_zipWith : ∀ (ins : List TxIn) (wits : List (List (List Nat))),
    ins.length = wits.length →
    (List.zipWith setWitness ins wits).map TxIn.witness = wits := by
  intro ins
  induction ins with
  | nil =>
    intro wits h
    cases wits with
    | nil => rfl
    | cons w ws => cases h
  | cons i ins ih =>
    intro wits h
    cases wits with
    | nil => cases h
    | cons w ws =>
      simp only [List.zipWith_cons_cons, List.map_cons]
      rw [ih ws (by simpa using h)]
      rfl

/-- A list of inputs with empty witness stacks has no segwit data. -/
theorem any_witness_false (ins : List TxIn) (h : ∀ i ∈ ins, i.witness = []) :
    (ins.any fun i => !i.witness.isEmpty) = false := by
  induction ins with
  | nil => rfl
  | cons i l ih =>
    rw [List.any_cons]
    rw [h i (List.mem_cons_self i l)]
    exact ih fun j hj => h j (List.mem_cons_of_mem _ hj)

/-- A successful legacy body parse consumed the canonical legacy body of
its result, whose transaction carries no segwit data. -/
theorem parseTxBytesLegacy_eq (version : Nat) (r0 : List Nat)
    (t : BitcoinTransaction) (r : List Nat)
    (h : parseTxBytesLegacy version r0 = some (t, r)) (hb : ∀ b ∈ r0, b < 256) :
    r0 = encodeVarInt t.input.length ++ ((t.input.map encodeTxIn).flatten ++
      (encodeVarInt t.output.length ++ ((t.output.map encodeTxOut).flatten ++
        (encodeU32 t.lock_time ++ r)))) ∧
      t.version = version ∧ hasWitness t = false := by
  unfold parseTxBytesLegacy at h
  cases hv1 : parseVarInt r0 with
  | none => rw [hv1] at h; cases h
  | some p =>
    obtain ⟨nin, r1⟩ := p
    rw [hv1] at h
    dsimp only at h
    cases hc1 : parseCount parseTxIn nin r1 with
    | none => rw [hc1] at h; cases h
    | some p2 =>
      obtain ⟨ins, r2⟩ := p2
      rw [hc1] at h
      dsimp only at h
      cases hv2 : parseVarInt r2 with
      | none => rw [hv2] at h; cases h
      | some p3 =>
        obtain ⟨nout, r3⟩ := p3
        rw [hv2] at h
        dsimp only at h
        cases hc2 : parseCount parseTxOut nout r3 with
        | none => rw [hc2] at h; cases h
        | some p4 =>
          obtain ⟨outs, r4⟩ := p4
          rw [hc2] at h
          dsimp only at h
          cases hu : parseU32 r4 with
          | none => rw [hu] at h; cases h
          | some p5 =>
            obtain ⟨lock, r5⟩ := p5
            rw [hu] at h
            dsimp only at h
            cases h
            obtain ⟨he1, _⟩ := parseVarInt_eq r0 nin r1 hv1 hb
            have hb1 := (bounds_of_append he1 hb).2
            obtain ⟨he2, hlen1⟩ := parseCount_eq
              (fun l x r h hb => parseTxIn_eq l x r h hb) nin r1 ins r2 hc1 hb1
            have hb2 := (bounds_of_append he2 hb1).2
            obtain ⟨he3, _⟩ := parseVarInt_eq r2 nout r3 hv2 hb2
            have hb3 := (bounds_of_append he3 hb2).2
            obtain ⟨he4, hlen2⟩ := parseCount_eq
              (fun l x r h hb => parseTxOut_eq l x r h hb) nout r3 outs r4 hc2 hb3
            have hb4 := (bounds_of_append he4 hb3).2
            obtain ⟨he5, _⟩ := parseU32_eq r4 lock _ hu hb4
            have hwall : ∀ i ∈ ins, i.witness = [] :=
              parseCount_all (fun l x r h => parseTxIn_witness l x r h)
                nin r1 ins r2 hc1
            refine ⟨?_, rfl, any_witness_false ins hwall⟩
            rw [he1, he2, he3, he4, he5, ← hlen1, ← hlen2]

/-- A successful segwit body parse consumed the canonical segwit body of
its result, whose transaction carries segwit data. -/
theorem parseTxBytesSegwit_eq (version : Nat) (r0 : List Nat)
    (t : BitcoinTransaction) (r : List Nat)
    (h : parseTxBytesSegwit version r0 = some (t, r)) (hb : ∀ b ∈ r0, b < 256) :
    r0 = encodeVarInt t.input.length ++ ((t.input.map encodeTxIn).flatten ++
      (encodeVarInt t.output.length ++ ((t.output.map encodeTxOut).flatten ++
        ((t.input.map fun i => encodeWitness i.witness).flatten ++
          (encodeU32 t.lock_time ++ r))))) ∧
      t.version = version ∧ hasWitness t = true := by
  unfold parseTxBytesSegwit at h
  cases hv1 : parseVarInt r0 with
  | none => rw [hv1] at h; cases h
  | some p =>
    obtain ⟨nin, r1⟩ := p
    rw [hv1] at h
    dsimp only at h
    cases hc1 : parseCount parseTxIn nin r1 with
    | none => rw [hc1] at h; cases h
    | some p2 =>
      obtain ⟨ins, r2⟩ := p2
      rw [hc1] at h
      dsimp only at h
      cases hv2 : parseVarInt r2 with
      | none => rw [hv2] at h; cases h
      | some p3 =>
        obtain ⟨nout, r3⟩ := p3
        rw [hv2] at h
        dsimp only at h
        cases hc2 : parseCount parseTxOut nout r3 with
        | none => rw [hc2] at h; cases h
        | some p4 =>
          obtain ⟨outs, r4⟩ := p4
          rw [hc2] at h
          dsimp only at h
          cases hcw : parseCount parseWitness nin r4 with
          | none => rw [hcw] at h; cases h
          | some p5 =>
            obtain ⟨wits, r5⟩ := p5
            rw [hcw] at h
            dsimp only at h
            cases hu : parseU32 r5 with
            | none => rw [hu] at h; cases h
            | some p6 =>
              obtain ⟨lock, r6⟩ := p6
              rw [hu] at h
              dsimp only at h
              split_ifs at h with hcond
              cases h
              obtain ⟨he1, _⟩ := parseVarInt_eq r0 nin r1 hv1 hb
              have hb1 := (bounds_of_append he1 hb).2
              obtain ⟨he2, hlen1⟩ := parseCount_eq
                (fun l x r h hb => parseTxIn_eq l x r h hb) nin r1 ins r2 hc1 hb1
              have hb2 := (bounds_of_append he2 hb1).2
              obtain ⟨he3, _⟩ := parseVarInt_eq r2 nout r3 hv2 hb2
              have hb3 := (bounds_of_append he3 hb2).2
              obtain ⟨he4, hlen2⟩ := parseCount_eq
                (fun l x r h hb => parseTxOut_eq l x r h hb) nout r3 outs r4 hc2 hb3
              have hb4 := (bounds_of_append he4 hb3).2
              obtain ⟨he5, hlenw⟩ := parseCount_eq
                (fun l x r h hb => parseWitness_eq l x r h hb) nin r4 wits r5 hcw hb4
              have hb5 := (bounds_of_append he5 hb4).2
              obtain ⟨he6, _⟩ := parseU32_eq r5 lock _ hu hb5
              have hzl : (List.zipWith setWitness ins wits).length = nin := by
                rw [List.length_zipWith, hlen1, hlenw, Nat.min_self]
              have hmapin : (List.zipWith setWitness ins wits).map encodeTxIn =
                  ins.map encodeTxIn :=
                map_encodeTxIn_zipWith ins wits (by rw [hlen1, hlenw])
              have hmapw : ((List.zipWith setWitness ins wits).map
                  fun i => encodeWitness i.witness) = wits.map encodeWitness := by
                rw [show ((List.zipWith setWitness ins wits).map
                    fun i => encodeWitness i.witness) =
                  (((List.zipWith setWitness ins wits).map TxIn.witness).map
                    encodeWitness) from by rw [List.map_map]; rfl]
                rw [map_witness_zipWith ins wits (by rw [hlen1, hlenw])]
              refine ⟨?_, rfl, hcond⟩
              rw [he1, he2, he3, he4, he5, he6]
              dsimp only
              rw [hzl, hmapin, hmapw, ← hlen2]

/-- A successful whole-transaction parse consumed the canonical encoding
of its result: every hex string the decoder accepts is the canonical
serialization of the decoded transaction. -/
theorem parseTxBytes_eq (l : List Nat) (t : BitcoinTransaction) (r : List Nat)
    (h : parseTxBytes l = some (t, r)) (hb : ∀ b ∈ l, b < 256) :
    l = encodeTxBytes t ++ r := by
  unfold parseTxBytes at h
  cases hu : parseU32 l with
  | none => rw [hu] at h; cases h
  | some p =>
    obtain ⟨version, r0⟩ := p
    rw [hu] at h
    dsimp only at h
    obtain ⟨hel, _⟩ := parseU32_eq l version r0 hu hb
    have hbr0 := (bounds_of_append hel hb).2
    have legacy : parseTxBytesLegacy version r0 = some (t, r) →
        l = encodeTxBytes t ++ r := by
      intro h2
      obtain ⟨heq, hv, hwz⟩ := parseTxBytesLegacy_eq version r0 t r h2 hbr0
      rw [hel, heq, ← hv]
      simp [encodeTxBytes, hwz, List.append_assoc]
    rcases r0 with _ | ⟨b, r0x⟩
    · exact legacy h
    · rcases b with _ | b1
      · rcases r0x with _ | ⟨b2, r0y⟩
        · exact legacy h
        · rcases b2 with _ | b3
          · exact legacy h
          · rcases b3 with _ | b4
            · have h2 : parseTxBytesSegwit version r0y = some (t, r) := h
              have hbr0y : ∀ x ∈ r0y, x < 256 := fun x hx =>
                hbr0 x (List.mem_cons_of_mem _ (List.mem_cons_of_mem _ hx))
              obtain ⟨heq, hv, hwz⟩ := parseTxBytesSegwit_eq version r0y t r h2 hbr0y
              rw [hel, heq, ← hv]
              simp [encodeTxBytes, hwz, List.append_assoc]
            · exact legacy h
      · exact legacy h

/-! ## Hex-layer lemmas -/

set_option maxHeartbeats 1000000 in
/-- Canonical hex digits decode back to their value. -/
theorem hexDigitValCanon_hexDigitChar : ∀ n < 16,
    hexDigitValCanon (hexDigitChar n) = some n := by
  decide

/-- A decodable hex digit is the canonical digit of its value. -/
theorem hexDigitValCanon_some (c : Char) (n : Nat) (h : hexDigitValCanon c = some n) :
    n < 16 ∧ hexDigitChar n = c := by
  unfold hexDigitValCanon at h
  by_cases h0 : c = '0'
  · rw [if_pos h0] at h
    cases h
    subst h0
    exact ⟨by decide, rfl⟩
  rw [if_neg h0] at h
  by_cases h1 : c = '1'
  · rw [if_pos h1] at h
    cases h
    subst h1
    exact ⟨by decide, rfl⟩
  rw [if_neg h1] at h
  by_cases h2 : c = '2'
  · rw [if_pos h2] at h
    cases h
    subst h2
    exact ⟨by decide, rfl⟩
  rw [if_neg h2] at h
  by_cases h3 : c = '3'
  · rw [if_pos h3] at h
    cases h
    subst h3
    exact ⟨by decide, rfl⟩
  rw [if_neg h3] at h
  by_cases h4 : c = '4'
  · rw [if_pos h4] at h
    cases h
    subst h4
    exact ⟨by decide, rfl⟩
  rw [if_neg h4] at h
  by_cases h5 : c = '5'
  · rw [if_pos h5] at h
    cases h
    subst h5
    exact ⟨by decide, rfl⟩
  rw [if_neg h5] at h
  by_cases h6 : c = '6'
  · rw [if_pos h6] at h
    cases h
    subst h6
    exact ⟨by decide, rfl⟩
  rw [if_neg h6] at h
  by_cases h7 : c = '7'
  · rw [if_pos h7] at h
    cases h
    subst h7
    exact ⟨by decide, rfl⟩
  rw [if_neg h7] at h
  by_cases h8 : c = '8'
  · rw [if_pos h8] at h
    cases h
    subst h8
    exact ⟨by decide, rfl⟩
  rw [if_neg h8] at h
  by_cases h9 : c = '9'
  · rw [if_pos h9] at h
    cases h
    subst h9
    exact ⟨by decide, rfl⟩
  rw [if_neg h9] at h
  by_cases h10 : c = 'a'
  · rw [if_pos h10] at h
    cases h
    subst h10
    exact ⟨by decide, rfl⟩
  rw [if_neg h10] at h
  by_cases h11 : c = 'b'
  · rw [if_pos h11] at h
    cases h
    subst h11
    exact ⟨by decide, rfl⟩
  rw [if_neg h11] at h
  by_cases h12 : c = 'c'
  · rw [if_pos h12] at h
    cases h
    subst h12
    exact ⟨by decide, rfl⟩
  rw [if_neg h12] at h
  by_cases h13 : c = 'd'
  · rw [if_pos h13] at h
    cases h
    subst h13
    exact ⟨by decide, rfl⟩
  rw [if_neg h13] at h
  by_cases h14 : c = 'e'
  · rw [if_pos h14] at h
    cases h
    subst h14
    exact ⟨by decide, rfl⟩
  rw [if_neg h14] at h
  by_cases h15 : c = 'f'
  · rw [if_pos h15] at h
    cases h
    subst h15
    exact ⟨by decide, rfl⟩
  rw [if_neg h15] at h
  cases h

/-- Decoding the lowercase hex encoding of a byte list restores it. -/
theorem hexDecodeChars_encode (l : List Nat) (hb : ∀ b ∈ l, b < 256) :
    hexDecodeChars hexDigitValCanon (hexEncodeChars l) = some l := by
  induction l with
  | nil => rfl
  | cons b bs ih =>
    have hblt : b < 256 := hb b (List.mem_cons_self b bs)
    have ihh := ih fun x hx => hb x (List.mem_cons_of_mem _ hx)
    unfold hexEncodeChars
    simp only [hexDecodeChars, hexDigitValCanon_hexDigitChar (b / 16) (by omega),
      hexDigitValCanon_hexDigitChar (b % 16) (by omega), ihh]
    simp only [Option.some.injEq, List.cons.injEq]
    exact ⟨by omega, trivial⟩

/-- An accepted canonical hex character list is the encoding of its
decoded bytes, which are all bytes. -/
theorem hexDecodeChars_eq : ∀ (l : List Nat) (cs : List Char),
    hexDecodeChars hexDigitValCanon cs = some l →
    hexEncodeChars l = cs ∧ ∀ b ∈ l, b < 256 := by
  intro l
  induction l with
  | nil =>
    intro cs h
    match cs, h with
    | [], _ => exact ⟨rfl, fun b hb => absurd hb (by simp)⟩
    | c1 :: c2 :: cs2, h =>
      unfold hexDecodeChars at h
      cases hd1 : hexDigitValCanon c1 with
      | none => rw [hd1] at h; cases h
      | some hi =>
        cases hd2 : hexDigitValCanon c2 with
        | none => rw [hd1, hd2] at h; cases h
        | some lo =>
          cases hrec : hexDecodeChars hexDigitValCanon cs2 with
          | none => rw [hd1, hd2, hrec] at h; cases h
          | some rest => rw [hd1, hd2, hrec] at h; cases h
  | cons b bs ih =>
    intro cs h
    match cs, h with
    | c1 :: c2 :: cs2, h =>
      unfold hexDecodeChars at h
      cases hd1 : hexDigitValCanon c1 with
      | none => rw [hd1] at h; cases h
      | some hi =>
        cases hd2 : hexDigitValCanon c2 with
        | none => rw [hd1, hd2] at h; cases h
        | some lo =>
          cases hrec : hexDecodeChars hexDigitValCanon cs2 with
          | none => rw [hd1, hd2, hrec] at h; cases h
          | some rest =>
            rw [hd1, hd2, hrec] at h
            cases h
            obtain ⟨hi16, hchi⟩ := hexDigitValCanon_some c1 hi hd1
            obtain ⟨lo16, hclo⟩ := hexDigitValCanon_some c2 lo hd2
            obtain ⟨henc, hbnd⟩ := ih cs2 hrec
            constructor
            · unfold hexEncodeChars
              rw [henc, show (16 * hi + lo) / 16 = hi by omega,
                show (16 * hi + lo) % 16 = lo by omega, hchi, hclo]
            · intro x hx
              cases List.mem_cons.mp hx with
              | inl heq => subst heq; omega
              | inr hmem => exact hbnd x hmem

/-- Canonical hex decoding inverts hex encoding of a byte list. -/
theorem hexDecodeCanon_encode (l : List Nat) (h : ∀ b ∈ l, b < 256) :
    hexDecodeCanon (hexEncode l) = some l := by
  unfold hexDecodeCanon hexEncode
  exact hexDecodeChars_encode l h

/-- An accepted canonical hex string is the hex encoding of its decoded
bytes. -/
theorem hexDecodeCanon_eq (s : String) (l : List Nat)
    (h : hexDecodeCanon s = some l) :
    hexEncode l = s ∧ ∀ b ∈ l, b < 256 := by
  obtain ⟨h1, h2⟩ := hexDecodeChars_eq l s.data h
  refine ⟨?_, h2⟩
  unfold hexEncode
  rw [h1]

/-! ## Byte-range of the encoders -/

/-- Append preserves byte bounds. -/
theorem bounds_append {a c : List Nat} (ha : ∀ b ∈ a, b < 256)
    (hc : ∀ b ∈ c, b < 256) : ∀ b ∈ a ++ c, b < 256 := by
  intro b hb
  cases List.mem_append.mp hb with
  | inl h => exact ha b h
  | inr h => exact hc b h

/-- Flattening encodings of list elements preserves byte bounds. -/
theorem bounds_flatten {α : Type} {xs : List α} {enc : α → List Nat}
    (h : ∀ x ∈ xs, ∀ b ∈ enc x, b < 256) :
    ∀ b ∈ (xs.map enc).flatten, b < 256 := by
  intro b hb
  rw [List.mem_flatten] at hb
  obtain ⟨l', hl', hbl⟩ := hb
  rw [List.mem_map] at hl'
  obtain ⟨x, hx, rfl⟩ := hl'
  exact h x hx b hbl

/-- `encodeU16` produces bytes. -/
theorem encodeU16_bounds (n : Nat) : ∀ b ∈ encodeU16 n, b < 256 := by
  intro b hb
  simp [encodeU16] at hb
  rcases hb with h | h <;> omega

/-- `encodeU32` produces bytes. -/
theorem encodeU32_bounds (n : Nat) : ∀ b ∈ encodeU32 n, b < 256 := by
  intro b hb
  simp [encodeU32] at hb
  rcases hb with h | h | h | h <;> omega

/-- `encodeU64` produces bytes. -/
theorem encodeU64_bounds (n : Nat) : ∀ b ∈ encodeU64 n, b < 256 := by
  intro b hb
  simp [encodeU64] at hb
  rcases hb with h | h | h | h | h | h | h | h <;> omega

/-- `encodeVarInt` produces bytes. -/
theorem encodeVarInt_bounds (n : Nat) : ∀ b ∈ encodeVarInt n, b < 256 := by
  intro b hb
  unfold encodeVarInt at hb
  split_ifs at hb with h1 h2 h3
  · simp at hb; omega
  · cases List.mem_cons.mp hb with
    | inl h => omega
    | inr h => exact encodeU16_bounds n b h
  · cases List.mem_cons.mp hb with
    | inl h => omega
    | inr h => exact encodeU32_bounds n b h
  · cases List.mem_cons.mp hb with
    | inl h => omega
    | inr h => exact encodeU64_bounds n b h

/-- `encodeVarBytes` produces bytes when its payload is bytes. -/
theorem encodeVarBytes_bounds (x : List Nat) (hx : ∀ b ∈ x, b < 256) :
    ∀ b ∈ encodeVarBytes x, b < 256 :=
  bounds_append (encodeVarInt_bounds x.length) hx

/-- A well-formed transaction's encoding is a byte list. -/
theorem encodeTxBytes_bounds (t : BitcoinTransaction) (h : wellFormedTx t = true) :
    ∀ b ∈ encodeTxBytes t, b < 256 := by
  obtain ⟨_, _, _, _, _, hins, houts⟩ := wellFormedTx_spec h
  have hin : ∀ i ∈ t.input, ∀ b ∈ encodeTxIn i, b < 256 := by
    intro i hi
    obtain ⟨_, htb, _, _, _, hsb, _, _⟩ := hins i hi
    exact bounds_append (bounds_append (bounds_append htb (encodeU32_bounds _))
      (encodeVarBytes_bounds _ hsb)) (encodeU32_bounds _)
  have hout : ∀ o ∈ t.output, ∀ b ∈ encodeTxOut o, b < 256 := by
    intro o ho
    obtain ⟨_, _, hpb⟩ := houts o ho
    exact bounds_append (encodeU64_bounds _) (encodeVarBytes_bounds _ hpb)
  have hwit : ∀ i ∈ t.input, ∀ b ∈ encodeWitness i.witness, b < 256 := by
    intro i hi
    obtain ⟨_, _, _, _, _, _, _, hws⟩ := hins i hi
    refine bounds_append (encodeVarInt_bounds _) (bounds_flatten ?_)
    intro w hw
    exact encodeVarBytes_bounds w (hws w hw).2
  unfold encodeTxBytes
  refine bounds_append (bounds_append (bounds_append (bounds_append (bounds_append
    (bounds_append (bounds_append (encodeU32_bounds _) ?_) (encodeVarInt_bounds _))
      (bounds_flatten hin)) (encodeVarInt_bounds _)) (bounds_flatten hout)) ?_)
    (encodeU32_bounds _)
  · split_ifs
    · intro b hb
      simp at hb
      rcases hb with h | h <;> omega
    · intro b hb
      cases hb
  · split_ifs
    · exact bounds_flatten hwit
    · intro b hb
      cases hb

/-! ## The hex round trip of the transaction codec -/

/-- Decoding the canonical hex serialization of a well-formed transaction
restores the transaction. -/
theorem decodeTx_encode (t : BitcoinTransaction) (h : wellFormedTx t = true) :
    decodeTx (serializedRawTransactionFromTx t).hexStr = some t := by
  unfold decodeTx serializedRawTransactionFromTx
  dsimp only
  rw [hexDecodeCanon_encode _ (encodeTxBytes_bounds t h)]
  have hp := parseTxBytes_encode t h []
  rw [List.append_nil] at hp
  dsimp only
  rw [hp]

/-- Any hex string the decoder accepts is the canonical serialization of
the decoded transaction, byte for byte. -/
theorem encodeTx_decode (s : String) (t : BitcoinTransaction)
    (h : decodeTx s = some t) :
    serializedRawTransactionFromTx t = { hexStr := s } := by
  unfold decodeTx at h
  cases hd : hexDecodeCanon s with
  | none => rw [hd] at h; cases h
  | some l =>
    rw [hd] at h
    dsimp only at h
    cases hp : parseTxBytes l with
    | none => rw [hp] at h; cases h
    | some p =>
      obtain ⟨t0, rest⟩ := p
      rw [hp] at h
      cases rest with
      | cons a as => dsimp only at h; cases h
      | nil =>
        dsimp only at h
        cases h
        obtain ⟨hs, hbl⟩ := hexDecodeCanon_eq s l hd
        have heq := parseTxBytes_eq l t [] hp hbl
        rw [List.append_nil] at heq
        unfold serializedRawTransactionFromTx
        rw [← heq, hs]

/-! ## C5 — the codec round-trip laws -/

/-- **C5**: for every structurally valid binary transaction, decoding its
canonical hex serialization (the `SerializedRawTransaction` produced from
it) yields the transaction back; and every hex string the decoder accepts
re-serializes to itself byte for byte — the serialization produced from a
transaction is its unique canonical hex form. -/
theorem c5_roundtrip :
    (∀ t : BitcoinTransaction, wellFormedTx t = true →
      decodeTx (serializedRawTransactionFromTx t).hexStr = some t) ∧
    (∀ (s : String) (t : BitcoinTransaction), decodeTx s = some t →
      serializedRawTransactionFromTx t = { hexStr := s }) :=
  ⟨fun t h => decodeTx_encode t h, fun s t h => encodeTx_decode s t h⟩

/-- Witness for C5: both round-trip directions at a concrete
segregated-witness transaction and its canonical hex. -/
theorem c5_witness :
    decodeTx (serializedRawTransactionFromTx c5Tx).hexStr = some c5Tx ∧
    serializedRawTransactionFromTx c5Tx = { hexStr := c5Hex } :=
  ⟨c5_roundtrip.1 c5Tx (by decide),
   c5_roundtrip.2 c5Hex c5Tx (by decide)⟩

end BtcRpc
